import Mathlib

/-!
Verification of the circulation engine of the library-management repository
(tasks 03 and 04): date arithmetic (src/task03/src/loan.c static helpers,
src/task04/src/date_utils.c), loan issuance and return processing
(src/task03/src/loan.c, src/task04/src/loan.c) and the eligibility queries
(src/task03/src/book.c).

The C code stores dates as "YYYY-MM-DD" strings and does its calendar maths
through the libc functions mktime / localtime / strftime / sscanf.  The
embedding models a broken-down date by its integer components and models
mktime/localtime by the proleptic Gregorian calendar: `mktimeDayNumber`
turns (possibly out-of-range) components into a day count since the Unix
epoch 1970-01-01, exactly as mktime normalizes a struct tm, and
`civilFromDays` is the inverse computation performed by localtime.  The
embedding assumes a timezone in which midnight of a civil date round-trips
through mktime/localtime unchanged (true for UTC and for every zone without
a negative DST offset); time_t is 64-bit, so no time_t overflow occurs for
the year ranges reachable here.  `int` arithmetic that can overflow in the
source (the `days * 24 * 60 * 60` product) is modelled with an explicit
wrap at 2^32.
-/

set_option maxHeartbeats 1000000
set_option maxRecDepth 100000

/-! ## Calendar core: the mathematics of mktime / localtime -/

/-- Gregorian leap-year predicate (as implemented by mktime's calendar). -/
def isLeap (y : Int) : Bool :=
  (y % 4 == 0 && y % 100 != 0) || y % 400 == 0

/-- Length of calendar month `m` of year `y` (m is 1-based). -/
def daysInMonth (y m : Int) : Int :=
  if m == 2 then (if isLeap y then 29 else 28)
  else if m == 4 || m == 6 || m == 9 || m == 11 then 30 else 31

/-- Day count from 0000-03-01 to the 1st of March of year `y` (March-based
years: year `y` runs from 1 March of `y` to end of February of `y+1`, so
the leap day of `y+1` falls at the end of March-year `y`). -/
def marchYearStart (y : Int) : Int :=
  365 * y + y / 4 - y / 100 + y / 400

/-- Length in days of March-based year `y` (contains 29 Feb of `y+1`). -/
def marchYearLen (y : Int) : Int :=
  if isLeap (y + 1) then 366 else 365

/-- Offset of the first day of March-based month `mp` (0 = March, ...,
11 = February) from the start of its March-based year; independent of leap
years because February comes last. -/
def monthStartOffset (mp : Int) : Int :=
  (153 * mp + 2) / 5

/-- Length of March-based month `mp`; `leap` tells whether the February at
position 11 has 29 days. -/
def marchMonthLen (leap : Bool) (mp : Int) : Int :=
  if mp == 1 || mp == 3 || mp == 6 || mp == 8 then 30
  else if mp == 11 then (if leap then 29 else 28) else 31

/-- Day number (days since 1970-01-01) of a date whose month is already in
1..12: the standard civil-calendar formula in March-based coordinates. -/
def dayNumber (y m d : Int) : Int :=
  (if m ≤ 2 then marchYearStart (y - 1) + monthStartOffset (m + 9)
   else marchYearStart y + monthStartOffset (m - 3)) + (d - 1) - 719468

/-- Day number computed by mktime from arbitrary (un-normalized) broken-down
components: mktime first folds the month into the year (tm_mon may be any
integer) and then offsets by the day field from the 1st of the month. -/
def mktimeDayNumber (y m d : Int) : Int :=
  dayNumber ((12 * y + (m - 1)) / 12) ((12 * y + (m - 1)) % 12 + 1) d

/-- Year search of the localtime computation: starting from March-year `y`
with `rem` days left, repeatedly subtract whole March-years. -/
def findYear : Nat → Int → Int → Int × Int
  | 0, y, rem => (y, rem)
  | f + 1, y, rem =>
    if rem < marchYearLen y then (y, rem)
    else findYear f (y + 1) (rem - marchYearLen y)

/-- Month search of the localtime computation: starting from March-month
`mp` with `rem` days left, repeatedly subtract whole months. -/
def findMonth : Nat → Bool → Int → Int → Int × Int
  | 0, _, mp, rem => (mp, rem)
  | f + 1, leap, mp, rem =>
    if rem < marchMonthLen leap mp then (mp, rem)
    else findMonth f leap (mp + 1) (rem - marchMonthLen leap mp)

/-- Civil date of day number `z` (days since 1970-01-01), as computed by
localtime: reduce modulo the 146097-day, 400-year Gregorian cycle, then
walk years and months. -/
def civilFromDays (z : Int) : Int × Int × Int :=
  let zd := z + 719468
  let era := zd / 146097
  let doe := zd - 146097 * era
  let p := findYear 401 (400 * era) doe
  let q := findMonth 12 (isLeap (p.1 + 1)) 0 p.2
  if q.1 < 10 then (p.1, q.1 + 3, q.2 + 1) else (p.1 + 1, q.1 - 9, q.2 + 1)

theorem marchYearStart_succ (y : Int) :
    marchYearStart (y + 1) = marchYearStart y + marchYearLen y := by
  unfold marchYearStart marchYearLen isLeap
  split <;> rename_i h <;>
    simp only [Bool.or_eq_true, Bool.and_eq_true, beq_iff_eq, bne_iff_ne, ne_eq] at h <;> omega

theorem marchYearStart_mono {a b : Int} (h : a < b) :
    marchYearStart a < marchYearStart b := by
  unfold marchYearStart; omega

theorem marchYearStart_shift (y q : Int) :
    marchYearStart (y + 400 * q) = marchYearStart y + 146097 * q := by
  unfold marchYearStart; omega

theorem marchYearLen_pos (y : Int) : 365 ≤ marchYearLen y := by
  unfold marchYearLen; split <;> omega

theorem findYear_spec (f : Nat) (y rem : Int) (h0 : 0 ≤ rem) (hf : rem < 365 * (f : Int)) :
    marchYearStart (findYear f y rem).1 + (findYear f y rem).2 = marchYearStart y + rem ∧
    0 ≤ (findYear f y rem).2 ∧ (findYear f y rem).2 < marchYearLen (findYear f y rem).1 := by
  induction f generalizing y rem with
  | zero => simp at hf; omega
  | succ f ih =>
    unfold findYear
    by_cases h : rem < marchYearLen y
    · simp [h]; omega
    · simp only [h, if_false]
      have hl := marchYearLen_pos y
      have hstep := marchYearStart_succ y
      have := ih (y + 1) (rem - marchYearLen y) (by omega)
        (by push_cast; push_cast at hf; omega)
      omega

theorem monthStartOffset_succ (leap : Bool) (mp : Int) (h0 : 0 ≤ mp) (h1 : mp ≤ 10) :
    monthStartOffset (mp + 1) = monthStartOffset mp + marchMonthLen leap mp := by
  unfold monthStartOffset marchMonthLen
  interval_cases mp <;> cases leap <;> simp <;> omega

theorem monthStartOffset_mono {a b : Int} (h0 : 0 ≤ a) (h : a < b) :
    monthStartOffset a < monthStartOffset b := by
  unfold monthStartOffset; omega

theorem findMonth_spec (f : Nat) (leap : Bool) (mp rem : Int)
    (hmp0 : 0 ≤ mp) (hmp1 : mp ≤ 11) (h0 : 0 ≤ rem)
    (hb : monthStartOffset mp + rem < (if leap then 366 else 365))
    (hf : 12 - mp ≤ (f : Int)) :
    0 ≤ (findMonth f leap mp rem).1 ∧ (findMonth f leap mp rem).1 ≤ 11 ∧
    monthStartOffset (findMonth f leap mp rem).1 + (findMonth f leap mp rem).2 =
      monthStartOffset mp + rem ∧
    0 ≤ (findMonth f leap mp rem).2 ∧
    (findMonth f leap mp rem).2 < marchMonthLen leap (findMonth f leap mp rem).1 := by
  induction f generalizing mp rem with
  | zero => simp at hf; omega
  | succ f ih =>
    unfold findMonth
    by_cases h : rem < marchMonthLen leap mp
    · simp [h]; omega
    · simp only [h, if_false]
      by_cases h11 : mp = 11
      · exfalso
        subst h11
        have : monthStartOffset 11 = 337 := by unfold monthStartOffset; norm_num
        unfold marchMonthLen at h
        cases leap <;> simp at h hb <;> omega
      · have hstep := monthStartOffset_succ leap mp hmp0 (by omega)
        have := ih (mp + 1) (rem - marchMonthLen leap mp) (by omega) (by omega)
          (by omega) (by omega) (by push_cast; push_cast at hf; omega)
        omega

theorem marchMonthLen_eq_daysInMonth_lo (y mp : Int) (h0 : 0 ≤ mp) (h1 : mp ≤ 9) :
    marchMonthLen (isLeap (y + 1)) mp = daysInMonth y (mp + 3) := by
  unfold marchMonthLen daysInMonth
  interval_cases mp <;> simp

theorem marchMonthLen_eq_daysInMonth_hi (y mp : Int) (h0 : 10 ≤ mp) (h1 : mp ≤ 11) :
    marchMonthLen (isLeap (y + 1)) mp = daysInMonth (y + 1) (mp - 9) := by
  unfold marchMonthLen daysInMonth
  interval_cases mp <;> simp

/-- Everything localtime guarantees about the date it produces: the day
number maps back to `z`, the month is 1..12, and the day is within the
month (so also 28/29 February is handled correctly). -/
theorem civilFromDays_spec (z : Int) :
    dayNumber (civilFromDays z).1 (civilFromDays z).2.1 (civilFromDays z).2.2 = z ∧
    1 ≤ (civilFromDays z).2.1 ∧ (civilFromDays z).2.1 ≤ 12 ∧
    1 ≤ (civilFromDays z).2.2 ∧
    (civilFromDays z).2.2 ≤ daysInMonth (civilFromDays z).1 (civilFromDays z).2.1 := by
  simp only [civilFromDays]
  generalize hera : (z + 719468) / 146097 = era
  have hdoe0 : 0 ≤ z + 719468 - 146097 * era := by omega
  have hdoe1 : z + 719468 - 146097 * era < 146097 := by omega
  generalize hp : findYear 401 (400 * era) (z + 719468 - 146097 * era) = p
  have hy := findYear_spec 401 (400 * era) (z + 719468 - 146097 * era) hdoe0
    (by push_cast; omega)
  rw [hp] at hy
  have hstart : marchYearStart (400 * era) = 146097 * era := by
    have h := marchYearStart_shift 0 era
    simpa [show marchYearStart 0 = 0 from rfl] using h
  rw [hstart] at hy
  have hylen : marchYearLen p.1 = (if isLeap (p.1 + 1) then 366 else 365) := rfl
  generalize hq : findMonth 12 (isLeap (p.1 + 1)) 0 p.2 = q
  have hm := findMonth_spec 12 (isLeap (p.1 + 1)) 0 p.2 (by omega) (by omega) (by omega)
    (by have hub := hy.2.2
        rw [hylen] at hub
        rw [show monthStartOffset 0 = 0 from rfl]
        omega)
    (by norm_num)
  rw [hq] at hm
  have hoff0 : monthStartOffset 0 = 0 := rfl
  rw [hoff0] at hm
  by_cases hbr : q.1 < 10
  · simp only [hbr, if_true]
    have e1 : q.1 + 3 - 3 = q.1 := by ring
    have e2 : ¬ (q.1 + 3 ≤ 2) := by omega
    have hlen := marchMonthLen_eq_daysInMonth_lo p.1 q.1 (by omega) (by omega)
    unfold dayNumber
    simp only [e2, if_false, e1]
    omega
  · simp only [hbr, if_false]
    have e1 : q.1 - 9 + 9 = q.1 := by ring
    have e2 : q.1 - 9 ≤ 2 := by omega
    have e3 : p.1 + 1 - 1 = p.1 := by ring
    have hlen := marchMonthLen_eq_daysInMonth_hi p.1 q.1 (by omega) (by omega)
    unfold dayNumber
    simp only [e2, if_true, e1, e3]
    omega

theorem daysInMonth_le (y m : Int) : daysInMonth y m ≤ 31 := by
  unfold daysInMonth
  split
  · split <;> omega
  · split <;> omega

theorem monthStartOffset_nonneg {mp : Int} (h : 0 ≤ mp) : 0 ≤ monthStartOffset mp := by
  unfold monthStartOffset; omega

theorem marchYearStart_le {a b : Int} (h : a ≤ b) : marchYearStart a ≤ marchYearStart b := by
  unfold marchYearStart; omega

theorem monthStartOffset_le {a b : Int} (h : a ≤ b) :
    monthStartOffset a ≤ monthStartOffset b := by
  unfold monthStartOffset; omega

/-- A day number lying in the March-year interval of two years forces the
years to be equal. -/
theorem marchYear_sandwich_unique {a b n : Int}
    (ha1 : marchYearStart a ≤ n) (ha2 : n < marchYearStart (a + 1))
    (hb1 : marchYearStart b ≤ n) (hb2 : n < marchYearStart (b + 1)) : a = b := by
  rcases lt_trichotomy a b with h | h | h
  · exfalso
    have := marchYearStart_le (show a + 1 ≤ b by omega)
    omega
  · exact h
  · exfalso
    have := marchYearStart_le (show b + 1 ≤ a by omega)
    omega

/-- A day-of-year lying in the interval of two March-months forces the
months to be equal. -/
theorem marchMonth_sandwich_unique (leap : Bool) {a b x : Int}
    (ha0 : 0 ≤ a) (ha1 : a ≤ 11) (hb0 : 0 ≤ b) (hb1 : b ≤ 11)
    (hxa1 : monthStartOffset a ≤ x) (hxa2 : x < monthStartOffset a + marchMonthLen leap a)
    (hxb1 : monthStartOffset b ≤ x) (hxb2 : x < monthStartOffset b + marchMonthLen leap b) :
    a = b := by
  rcases lt_trichotomy a b with h | h | h
  · exfalso
    have hs := monthStartOffset_succ leap a ha0 (by omega)
    have := monthStartOffset_le (show a + 1 ≤ b by omega)
    omega
  · exact h
  · exfalso
    have hs := monthStartOffset_succ leap b hb0 (by omega)
    have := monthStartOffset_le (show b + 1 ≤ a by omega)
    omega

/-- March-based decomposition of the day number of a valid calendar date. -/
theorem dayNumber_decomp (y m d : Int) (hm1 : 1 ≤ m) (hm2 : m ≤ 12)
    (hd1 : 1 ≤ d) (hd2 : d ≤ daysInMonth y m) :
    ∃ yM mp, 0 ≤ mp ∧ mp ≤ 11 ∧
      dayNumber y m d + 719468 = marchYearStart yM + monthStartOffset mp + (d - 1) ∧
      monthStartOffset mp + (d - 1) < marchYearLen yM ∧
      d - 1 < marchMonthLen (isLeap (yM + 1)) mp ∧
      y = (if mp < 10 then yM else yM + 1) ∧ m = (if mp < 10 then mp + 3 else mp - 9) := by
  have hlen365 := marchYearLen_pos y
  by_cases hm : m ≤ 2
  · refine ⟨y - 1, m + 9, by omega, by omega, ?_, ?_, ?_, by rw [if_neg (show ¬(m + 9 < 10) by omega)]; ring,
      by rw [if_neg (show ¬(m + 9 < 10) by omega)]; ring⟩
    · unfold dayNumber
      simp only [hm, if_true]
      ring
    · have hyl : marchYearLen (y - 1) = if isLeap y then 366 else 365 := by
        unfold marchYearLen
        rw [show y - 1 + 1 = y by ring]
      interval_cases m
      · rw [show (1 : Int) + 9 = 10 by norm_num]
        rw [show monthStartOffset 10 = 306 from rfl]
        have : daysInMonth y 1 = 31 := rfl
        split at hyl <;> omega
      · rw [show (2 : Int) + 9 = 11 by norm_num]
        rw [show monthStartOffset 11 = 337 from rfl]
        have hfe : daysInMonth y 2 = if isLeap y then 29 else 28 := by
          unfold daysInMonth; simp
        split at hyl <;> split at hfe <;> simp_all <;> omega
    · have hml : marchMonthLen (isLeap (y - 1 + 1)) (m + 9) = daysInMonth y m := by
        rw [show y - 1 + 1 = y by ring]
        have := marchMonthLen_eq_daysInMonth_hi (y - 1) (m + 9) (by omega) (by omega)
        rw [show y - 1 + 1 = y by ring] at this
        rw [this, show m + 9 - 9 = m by ring]
      omega
  · refine ⟨y, m - 3, by omega, by omega, ?_, ?_, ?_, by rw [if_pos (show m - 3 < 10 by omega)],
      by rw [if_pos (show m - 3 < 10 by omega)]; ring⟩
    · unfold dayNumber
      simp only [hm, if_false]
      ring
    · have h31 := daysInMonth_le y m
      have h306 : monthStartOffset (m - 3) ≤ 306 := by unfold monthStartOffset; omega
      omega
    · have hml := marchMonthLen_eq_daysInMonth_lo y (m - 3) (by omega) (by omega)
      rw [show m - 3 + 3 = m by ring] at hml
      omega

/-- The day number is injective on valid calendar dates. -/
theorem dayNumber_inj {y1 m1 d1 y2 m2 d2 : Int}
    (hm1 : 1 ≤ m1) (hm1b : m1 ≤ 12) (hd1 : 1 ≤ d1) (hd1b : d1 ≤ daysInMonth y1 m1)
    (hm2 : 1 ≤ m2) (hm2b : m2 ≤ 12) (hd2 : 1 ≤ d2) (hd2b : d2 ≤ daysInMonth y2 m2)
    (heq : dayNumber y1 m1 d1 = dayNumber y2 m2 d2) :
    y1 = y2 ∧ m1 = m2 ∧ d1 = d2 := by
  obtain ⟨a, pa, hpa0, hpa1, hNa, hYa, hMa, hya, hma⟩ :=
    dayNumber_decomp y1 m1 d1 hm1 hm1b hd1 hd1b
  obtain ⟨b, pb, hpb0, hpb1, hNb, hYb, hMb, hyb, hmb⟩ :=
    dayNumber_decomp y2 m2 d2 hm2 hm2b hd2 hd2b
  have hoffa := monthStartOffset_nonneg hpa0
  have hoffb := monthStartOffset_nonneg hpb0
  have hsucca := marchYearStart_succ a
  have hsuccb := marchYearStart_succ b
  have hab : a = b := by
    apply marchYear_sandwich_unique (n := dayNumber y1 m1 d1 + 719468) <;> omega
  subst hab
  have hpab : pa = pb := by
    apply marchMonth_sandwich_unique (isLeap (a + 1))
      (x := monthStartOffset pa + (d1 - 1)) hpa0 hpa1 hpb0 hpb1 <;> omega
  subst hpab
  refine ⟨?_, ?_, by omega⟩
  · rw [hya, hyb]
  · rw [hma, hmb]

/-- Round trip in the other direction: localtime of the mktime day number
of a valid calendar date gives the date back. -/
theorem civilFromDays_dayNumber (y m d : Int) (hm1 : 1 ≤ m) (hm2 : m ≤ 12)
    (hd1 : 1 ≤ d) (hd2 : d ≤ daysInMonth y m) :
    civilFromDays (dayNumber y m d) = (y, m, d) := by
  have hs := civilFromDays_spec (dayNumber y m d)
  obtain ⟨hnum, h1, h2, h3, h4⟩ := hs
  have := dayNumber_inj h1 h2 h3 h4 hm1 hm2 hd1 hd2 hnum
  obtain ⟨hy, hmm, hdd⟩ := this
  have : civilFromDays (dayNumber y m d) =
      ((civilFromDays (dayNumber y m d)).1,
       (civilFromDays (dayNumber y m d)).2.1,
       (civilFromDays (dayNumber y m d)).2.2) := rfl
  rw [this, hy, hmm, hdd]

/-! ## Strings: the sscanf "%d-%d-%d" parser and the strftime "%Y-%m-%d"
renderer used by every date helper in the source -/

/-- Characters skipped by a scanf `%d` conversion (C `isspace`). -/
def isWs (c : Char) : Bool :=
  c == ' ' || c == '\t' || c == '\n' || c == '\x0b' || c == '\x0c' || c == '\r'

def skipWs : List Char → List Char
  | [] => []
  | c :: cs => if isWs c then skipWs cs else c :: cs

/-- Numeric value of a digit run, most-significant first. -/
def valDigits (ds : List Char) : Nat :=
  ds.foldl (fun a c => 10 * a + (c.toNat - 48)) 0

/-- Greedy digit run of a scanf `%d` conversion (after sign handling):
fails when no digit is present. -/
def scanNat (cs : List Char) : Option (Nat × List Char) :=
  let ds := cs.takeWhile Char.isDigit
  if ds.isEmpty then none else some (valDigits ds, cs.dropWhile Char.isDigit)

/-- One scanf `%d` conversion: skip whitespace, optional sign, digits. -/
def scanInt (cs : List Char) : Option (Int × List Char) :=
  match skipWs cs with
  | [] => none
  | c :: rest =>
    if c == '-' then (scanNat rest).map (fun p => (-(p.1 : Int), p.2))
    else if c == '+' then (scanNat rest).map (fun p => ((p.1 : Int), p.2))
    else (scanNat (c :: rest)).map (fun p => ((p.1 : Int), p.2))

/-- The exact acceptance behaviour of `sscanf(s, "%d-%d-%d", ...) == 3`:
three `%d` conversions separated by literal minus signs; trailing text is
ignored. -/
def parse3Ints (cs : List Char) : Option (Int × Int × Int) :=
  match scanInt cs with
  | none => none
  | some (y, r1) =>
    match r1 with
    | [] => none
    | c1 :: r1' =>
      if c1 == '-' then
        match scanInt r1' with
        | none => none
        | some (m, r2) =>
          match r2 with
          | [] => none
          | c2 :: r2' =>
            if c2 == '-' then
              match scanInt r2' with
              | none => none
              | some (d, _) => some (y, m, d)
            else none
      else none

/-- Decimal digit characters of `n`, most-significant first (fuel-bounded
division loop; empty for 0). -/
def natToDigits : Nat → Nat → List Char
  | 0, _ => []
  | f + 1, n => if n = 0 then [] else natToDigits f (n / 10) ++ [Nat.digitChar (n % 10)]

/-- Decimal rendering of a natural number, as printf "%d" renders it. -/
def natToDec (n : Nat) : List Char :=
  if n = 0 then ['0'] else natToDigits (n + 1) n

/-- Decimal rendering of an integer (strftime "%Y": sign plus digits, no
padding). -/
def intToDec (i : Int) : List Char :=
  if i < 0 then '-' :: natToDec i.natAbs else natToDec i.natAbs

/-- Rendering of strftime "%m" / "%d": zero-padded to two characters. -/
def pad2 (i : Int) : List Char :=
  if 0 ≤ i ∧ i < 10 then '0' :: natToDec i.natAbs else intToDec i

/-- The "%Y-%m-%d" date string strftime produces from normalized
components. -/
def formatDate (y m d : Int) : String :=
  ⟨intToDec y ++ '-' :: (pad2 m ++ '-' :: pad2 d)⟩

/-- Two-complement wrap of a 32-bit signed `int` product, the concrete
semantics of the overflowing `days * 24 * 60 * 60` multiplication. -/
def wrap32 (x : Int) : Int :=
  (x + 2 ^ 31) % 2 ^ 32 - 2 ^ 31

/-- The continuation list a digit run may be followed by without being
extended: empty, or starting with a non-digit. -/
def noLeadDigit : List Char → Prop
  | [] => True
  | c :: _ => c.isDigit = false

theorem skipWs_cons_of_not (c : Char) (cs : List Char) (h : isWs c = false) :
    skipWs (c :: cs) = c :: cs := by
  unfold skipWs; simp [h]

theorem takeWhile_append_of_all {p : Char → Bool} (xs rest : List Char)
    (hall : ∀ c ∈ xs, p c = true)
    (hr : match rest with | [] => True | c :: _ => p c = false) :
    (xs ++ rest).takeWhile p = xs ∧ (xs ++ rest).dropWhile p = rest := by
  induction xs with
  | nil =>
    simp only [List.nil_append]
    cases rest with
    | nil => simp
    | cons c cs => simp only [List.takeWhile_cons, List.dropWhile_cons]; simp at hr; simp [hr]
  | cons x xs ih =>
    have hx : p x = true := hall x (by simp)
    have := ih (fun c hc => hall c (by simp [hc]))
    simp only [List.cons_append, List.takeWhile_cons, List.dropWhile_cons, hx]
    simp [this.1, this.2]

theorem digitChar_isDigit {n : Nat} (h : n < 10) : (Nat.digitChar n).isDigit = true := by
  interval_cases n <;> decide

theorem digitChar_toNat {n : Nat} (h : n < 10) : (Nat.digitChar n).toNat - 48 = n := by
  interval_cases n <;> decide

theorem natToDigits_isDigit (f : Nat) :
    ∀ n, ∀ c ∈ natToDigits f n, c.isDigit = true := by
  induction f with
  | zero => intro n c hc; simp [natToDigits] at hc
  | succ f ih =>
    intro n c hc
    unfold natToDigits at hc
    by_cases hn : n = 0
    · simp [hn] at hc
    · simp only [hn, if_false, List.mem_append, List.mem_singleton] at hc
      rcases hc with hc | hc
      · exact ih _ c hc
      · subst hc; exact digitChar_isDigit (Nat.mod_lt n (by norm_num))

theorem valDigits_go (f : Nat) : ∀ n acc, n < 10 ^ f →
    (natToDigits f n).foldl (fun a c => 10 * a + (c.toNat - 48)) acc =
      acc * 10 ^ (natToDigits f n).length + n := by
  induction f with
  | zero =>
    intro n acc h
    simp [natToDigits]
    omega
  | succ f ih =>
    intro n acc h
    unfold natToDigits
    by_cases hn : n = 0
    · simp [hn]
    · simp only [hn, if_false]
      rw [List.foldl_append]
      have hdiv : n / 10 < 10 ^ f := by
        rw [Nat.div_lt_iff_lt_mul (by norm_num)]
        rw [pow_succ] at h
        exact h
      rw [ih (n / 10) acc hdiv]
      simp only [List.foldl_cons, List.foldl_nil, List.length_append, List.length_singleton]
      rw [digitChar_toNat (Nat.mod_lt n (by norm_num))]
      rw [pow_succ]
      have := Nat.div_add_mod n 10
      ring_nf
      omega

theorem natToDec_isDigit (n : Nat) : ∀ c ∈ natToDec n, c.isDigit = true := by
  intro c hc
  unfold natToDec at hc
  by_cases hn : n = 0
  · simp [hn] at hc; subst hc; decide
  · simp only [hn, if_false] at hc
    exact natToDigits_isDigit (n + 1) n c hc

theorem natToDec_ne_nil (n : Nat) : natToDec n ≠ [] := by
  unfold natToDec
  by_cases hn : n = 0
  · simp [hn]
  · simp only [hn, if_false]
    unfold natToDigits
    simp [hn]

theorem valDigits_natToDec (n : Nat) : valDigits (natToDec n) = n := by
  unfold natToDec valDigits
  by_cases hn : n = 0
  · simp [hn]
  · simp only [hn, if_false]
    rw [valDigits_go (n + 1) n 0 (by
      calc n < 10 ^ n := Nat.lt_pow_self (by norm_num) n
      _ ≤ 10 ^ (n + 1) := Nat.pow_le_pow_right (by norm_num) (by omega))]
    simp

theorem scanNat_spec (ds rest : List Char) (hds : ∀ c ∈ ds, c.isDigit = true)
    (hne : ds ≠ []) (hr : noLeadDigit rest) :
    scanNat (ds ++ rest) = some (valDigits ds, rest) := by
  unfold scanNat
  have hsplit := takeWhile_append_of_all (p := Char.isDigit) ds rest hds
    (by cases rest with | nil => trivial | cons c cs => exact hr)
  rw [hsplit.1, hsplit.2]
  cases ds with
  | nil => exact absurd rfl hne
  | cons c cs => simp

theorem not_ws_of_digit {c : Char} (h : c.isDigit = true) : isWs c = false := by
  by_contra hne
  have hw : isWs c = true := by revert hne; cases isWs c <;> simp
  unfold isWs at hw
  simp only [Bool.or_eq_true, beq_iff_eq] at hw
  rcases hw with ((((h1 | h1) | h1) | h1) | h1) | h1 <;> subst h1 <;> exact absurd h (by decide)

theorem digit_beq_dash {c : Char} (h : c.isDigit = true) : (c == '-') = false := by
  rw [beq_eq_false_iff_ne]
  intro he; subst he; exact absurd h (by decide)

theorem digit_beq_plus {c : Char} (h : c.isDigit = true) : (c == '+') = false := by
  rw [beq_eq_false_iff_ne]
  intro he; subst he; exact absurd h (by decide)

theorem scanInt_natToDec (n : Nat) (rest : List Char) (hr : noLeadDigit rest) :
    scanInt (natToDec n ++ rest) = some ((n : Int), rest) := by
  obtain ⟨c, cs, hc⟩ : ∃ c cs, natToDec n = c :: cs := by
    cases hh : natToDec n with
    | nil => exact absurd hh (natToDec_ne_nil n)
    | cons a l => exact ⟨a, l, rfl⟩
  have hcd : c.isDigit = true := natToDec_isDigit n c (by rw [hc]; simp)
  unfold scanInt
  rw [hc, List.cons_append, skipWs_cons_of_not _ _ (not_ws_of_digit hcd)]
  simp only [digit_beq_dash hcd, digit_beq_plus hcd, Bool.false_eq_true, if_false]
  rw [← List.cons_append, ← hc, scanNat_spec _ _ (natToDec_isDigit n) (natToDec_ne_nil n) hr]
  simp [valDigits_natToDec]

theorem scanInt_intToDec (i : Int) (rest : List Char) (hr : noLeadDigit rest) :
    scanInt (intToDec i ++ rest) = some (i, rest) := by
  unfold intToDec
  by_cases hi : i < 0
  · simp only [hi, if_true]
    unfold scanInt
    rw [List.cons_append, skipWs_cons_of_not _ _ (by decide)]
    simp only [show ('-' == '-') = true from rfl, if_true]
    rw [scanNat_spec _ _ (natToDec_isDigit i.natAbs) (natToDec_ne_nil i.natAbs) hr]
    have : ((i.natAbs : Nat) : Int) = -i := by omega
    simp [valDigits_natToDec, this]
  · simp only [hi, if_false]
    rw [scanInt_natToDec i.natAbs rest hr]
    have : ((i.natAbs : Nat) : Int) = i := by omega
    rw [this]

theorem valDigits_cons_zero (ds : List Char) : valDigits ('0' :: ds) = valDigits ds := rfl

theorem scanInt_pad2 (i : Int) (rest : List Char) (h0 : 0 ≤ i) (hr : noLeadDigit rest) :
    scanInt (pad2 i ++ rest) = some (i, rest) := by
  unfold pad2
  by_cases hsmall : 0 ≤ i ∧ i < 10
  · simp only [hsmall, and_self, if_true]
    unfold scanInt
    rw [List.cons_append, skipWs_cons_of_not _ _ (by decide)]
    simp only [show ('0' == '-') = false from rfl, show ('0' == '+') = false from rfl,
      Bool.false_eq_true, if_false]
    rw [← List.cons_append]
    rw [scanNat_spec ('0' :: natToDec i.natAbs) rest
      (by intro c hc
          simp only [List.mem_cons] at hc
          rcases hc with hc | hc
          · subst hc; decide
          · exact natToDec_isDigit i.natAbs c hc)
      (by simp) hr]
    rw [valDigits_cons_zero, valDigits_natToDec]
    have : ((i.natAbs : Nat) : Int) = i := by omega
    simp [this]
  · simp only [hsmall, if_false]
    exact scanInt_intToDec i rest hr

/-- Parsing a strftime-rendered date recovers the components: the exact
round trip the engine relies on when it re-reads the date strings it
stored. -/
theorem parse3Ints_formatDate (y m d : Int) (hm : 0 ≤ m) (hd : 0 ≤ d) :
    parse3Ints (formatDate y m d).data = some (y, m, d) := by
  show parse3Ints (intToDec y ++ '-' :: (pad2 m ++ '-' :: pad2 d)) = some (y, m, d)
  unfold parse3Ints
  rw [scanInt_intToDec y _ (by show ('-').isDigit = false; decide)]
  simp only [show ('-' == '-') = true from rfl, if_true]
  rw [scanInt_pad2 m _ hm (by show ('-').isDigit = false; decide)]
  simp only [show ('-' == '-') = true from rfl, if_true]
  rw [show pad2 d = pad2 d ++ [] by simp]
  rw [scanInt_pad2 d [] hd trivial]

/-! ## The date helpers of the source

`Clock` stands for the current moment: the civil date that localtime
reports (used by get_current_date / get_date_string) and, for the SQL
julianday('now') expression, the seconds elapsed since that date's
midnight (julianday works in fractional days; every expression the
queries build from it is scaled here by 86400 to exact integer seconds,
which preserves all comparisons and truncations involved). -/

structure Clock where
  y : Int
  m : Int
  d : Int
  sec : Int

/-- get_current_date (src/task03/src/loan.c:17): strftime "%Y-%m-%d" of
localtime(now). -/
def get_current_date (c : Clock) : String :=
  formatDate c.y c.m c.d

/-- add_days_to_date (src/task03/src/loan.c:31): sscanf "%d-%d-%d", mktime
(tm_isdst and time fields zero, i.e. midnight), add `days * 24 * 60 * 60`
seconds computed as a 32-bit int product, then localtime + strftime; on a
parse failure the input string is copied unchanged (the strncpy truncation
for over-long buffers is not modelled, callers pass MAX_DATE_LEN buffers). -/
def add_days_to_date (date_str : String) (days : Int) : String :=
  match parse3Ints date_str.data with
  | none => date_str
  | some (y, m, d) =>
    let t := 86400 * mktimeDayNumber y m d + wrap32 (days * 86400)
    let c := civilFromDays (t / 86400)
    formatDate c.1 c.2.1 c.2.2

/-- calculate_date_diff (src/task03/src/loan.c:55): both strings through
sscanf + mktime at midnight, then `(time2 - time1) / 86400` where the
division is C truncating division of the 64-bit time_t difference; a parse
failure of either argument returns 0. -/
def calculate_date_diff (date1 date2 : String) : Int :=
  match parse3Ints date1.data with
  | none => 0
  | some (y1, m1, d1) =>
    match parse3Ints date2.data with
    | none => 0
    | some (y2, m2, d2) =>
      Int.tdiv (86400 * mktimeDayNumber y2 m2 d2 - 86400 * mktimeDayNumber y1 m1 d1) 86400

/-- calculate_suspension_days (src/task03/src/loan.c:551): overdue days
times the SUSPENSION_MULTIPLIER of 2. -/
def calculate_suspension_days (overdue_days : Int) : Int :=
  overdue_days * 2

/-- get_date_string (src/task04/src/date_utils.c:7): localtime(now), add
`days_to_add` to tm_mday, normalize with mktime, render with strftime.
The time-of-day fields stay within their ranges, so only the date part of
the normalization matters. -/
def get_date_string (c : Clock) (days_to_add : Int) : String :=
  let t := civilFromDays (mktimeDayNumber c.y c.m (c.d + days_to_add))
  formatDate t.1 t.2.1 t.2.2

/-- date_difference (src/task04/src/date_utils.c:28): both strings through
sscanf + mktime; `(int)difftime(t2, t1) / 86400` first truncates the
seconds difference to a 32-bit int (wrap modelled explicitly) and then
divides with C truncating division; parse failure returns 0. -/
def date_difference (date1 date2 : String) : Int :=
  match parse3Ints date1.data with
  | none => 0
  | some (y1, m1, d1) =>
    match parse3Ints date2.data with
    | none => 0
    | some (y2, m2, d2) =>
      Int.tdiv (wrap32 (86400 * mktimeDayNumber y2 m2 d2 - 86400 * mktimeDayNumber y1 m1 d1)) 86400

/-- is_valid_date_string (src/task04/src/date_utils.c:66): sscanf
"%d-%d-%d", coarse range checks (year 1900..3000, month 1..12, day 1..31),
then the mktime/localtime normalization round trip must reproduce the
parsed components exactly. -/
def is_valid_date_string (s : String) : Bool :=
  match parse3Ints s.data with
  | none => false
  | some (y, m, d) =>
    if y < 1900 ∨ y > 3000 then false
    else if m < 1 ∨ m > 12 then false
    else if d < 1 ∨ d > 31 then false
    else decide (civilFromDays (mktimeDayNumber y m d) = (y, m, d))

/-- calculate_overdue_days (src/task04/src/loan.c:390) with an explicit
return date (return_book always passes one; the NULL branch substituting
the current date is not exercised by the engine): negative differences are
clamped to zero. -/
def calculate_overdue_days (due_date return_date : String) : Int :=
  let days := date_difference due_date return_date
  if days > 0 then days else 0

/-- Written from the spec's words, for comparison only: a string of the
exact shape YYYY-MM-DD (four digits, dash, two digits, dash, two digits). -/
def isExactYyyyMmDdForm (s : String) : Bool :=
  match s.data with
  | [a, b, c, d, e, f, g, h, i, j] =>
    a.isDigit && b.isDigit && c.isDigit && d.isDigit && e == '-' &&
    f.isDigit && g.isDigit && h == '-' && i.isDigit && j.isDigit
  | _ => false

theorem mktimeDayNumber_eq (y m d : Int) (h1 : 1 ≤ m) (h2 : m ≤ 12) :
    mktimeDayNumber y m d = dayNumber y m d := by
  unfold mktimeDayNumber
  rw [show (12 * y + (m - 1)) / 12 = y by omega, show (12 * y + (m - 1)) % 12 + 1 = m by omega]

theorem wrap32_eq {x : Int} (h1 : -(2 ^ 31) ≤ x) (h2 : x < 2 ^ 31) : wrap32 x = x := by
  unfold wrap32; omega

theorem calculate_date_diff_some {s1 s2 : String} {y1 m1 d1 y2 m2 d2 : Int}
    (h1 : parse3Ints s1.data = some (y1, m1, d1))
    (h2 : parse3Ints s2.data = some (y2, m2, d2)) :
    calculate_date_diff s1 s2 =
      Int.tdiv (86400 * mktimeDayNumber y2 m2 d2 - 86400 * mktimeDayNumber y1 m1 d1) 86400 := by
  unfold calculate_date_diff
  rw [h1, h2]

theorem add_days_to_date_some {s : String} {y m d : Int}
    (h : parse3Ints s.data = some (y, m, d)) (days : Int) :
    add_days_to_date s days =
      formatDate (civilFromDays ((86400 * mktimeDayNumber y m d + wrap32 (days * 86400)) / 86400)).1
        (civilFromDays ((86400 * mktimeDayNumber y m d + wrap32 (days * 86400)) / 86400)).2.1
        (civilFromDays ((86400 * mktimeDayNumber y m d + wrap32 (days * 86400)) / 86400)).2.2 := by
  unfold add_days_to_date
  rw [h]

/-- C2: for every parseable date string and every integer n whose second
count fits a 32-bit int, the engine's day difference of a date and that
date shifted by n days is exactly n; the computation runs on date-only
values (midnight to midnight), so no time-of-day or timezone truncation
can shift it. -/
theorem C2_diff_days_of_add_days (dstr : String) (y m d n : Int)
    (hp : parse3Ints dstr.data = some (y, m, d))
    (hn1 : -24855 ≤ n) (hn2 : n ≤ 24855) :
    calculate_date_diff dstr (add_days_to_date dstr n) = n := by
  have hwrap : wrap32 (n * 86400) = n * 86400 := wrap32_eq (by omega) (by omega)
  have hdiv : (86400 * mktimeDayNumber y m d + n * 86400) / 86400 =
      mktimeDayNumber y m d + n := by omega
  rw [add_days_to_date_some hp n, hwrap, hdiv]
  obtain ⟨hnum, h1, h2, h3, h4⟩ := civilFromDays_spec (mktimeDayNumber y m d + n)
  rw [calculate_date_diff_some hp (parse3Ints_formatDate _ _ _ (by omega) (by omega))]
  rw [mktimeDayNumber_eq _ _ _ h1 h2, hnum]
  have he : 86400 * (mktimeDayNumber y m d + n) - 86400 * mktimeDayNumber y m d =
      86400 * n := by ring
  rw [he]
  exact Int.mul_tdiv_cancel_left n (by norm_num)

/-- C2 counterexample: for n = 24856 the C product `days * 24 * 60 * 60`
overflows a 32-bit int (two-complement wrap), and the round trip returns
-24855 instead of 24856. -/
theorem C2_counterexample :
    calculate_date_diff "2024-01-01" (add_days_to_date "2024-01-01" 24856) = -24855 := by
  decide

theorem C2_witness :
    calculate_date_diff "2024-02-28" (add_days_to_date "2024-02-28" 2) = 2 :=
  C2_diff_days_of_add_days "2024-02-28" 2024 2 28 2 (by decide) (by decide) (by decide)

/-- C7 (amended): the validator accepts exactly the strings whose sscanf
"%d-%d-%d" parse yields a year in 1900..3000, a month in 1..12 and a day
that exists in that month (leap years included); acceptance does not
require the zero-padded ten-character YYYY-MM-DD shape, and text after the
third integer is ignored. -/
theorem C7_accepts_exactly_real_dates (s : String) :
    is_valid_date_string s = true ↔
      ∃ y m d, parse3Ints s.data = some (y, m, d) ∧
        1900 ≤ y ∧ y ≤ 3000 ∧ 1 ≤ m ∧ m ≤ 12 ∧ 1 ≤ d ∧ d ≤ daysInMonth y m := by
  unfold is_valid_date_string
  cases hp : parse3Ints s.data with
  | none => simp
  | some t =>
    obtain ⟨y, m, d⟩ := t
    show (if y < 1900 ∨ y > 3000 then false
      else if m < 1 ∨ m > 12 then false
      else if d < 1 ∨ d > 31 then false
      else decide (civilFromDays (mktimeDayNumber y m d) = (y, m, d))) = true ↔ _
    constructor
    · intro h
      by_cases c1 : y < 1900 ∨ y > 3000
      · rw [if_pos c1] at h; exact absurd h (by simp)
      rw [if_neg c1] at h
      by_cases c2 : m < 1 ∨ m > 12
      · rw [if_pos c2] at h; exact absurd h (by simp)
      rw [if_neg c2] at h
      by_cases c3 : d < 1 ∨ d > 31
      · rw [if_pos c3] at h; exact absurd h (by simp)
      rw [if_neg c3] at h
      have heq : civilFromDays (mktimeDayNumber y m d) = (y, m, d) := of_decide_eq_true h
      obtain ⟨hnum, h1, h2, h3, h4⟩ := civilFromDays_spec (mktimeDayNumber y m d)
      rw [heq] at h4
      exact ⟨y, m, d, rfl, by omega, by omega, by omega, by omega, by omega, h4⟩
    · rintro ⟨y', m', d', heq, hy1, hy2, hm1, hm2, hd1, hd2⟩
      obtain ⟨rfl, rfl, rfl⟩ : y = y' ∧ m = m' ∧ d = d' := by
        have := Option.some.inj heq
        simp only [Prod.mk.injEq] at this
        exact ⟨this.1, this.2.1, this.2.2⟩
      have h31 := daysInMonth_le y m
      rw [if_neg (by omega), if_neg (by omega), if_neg (by omega)]
      rw [mktimeDayNumber_eq _ _ _ hm1 hm2, civilFromDays_dayNumber y m d hm1 hm2 hd1 hd2]
      simp

/-- C7 counterexample: "2024-1-1" is accepted by is_valid_date_string even
though it is not of the exact YYYY-MM-DD shape the claim describes. -/
theorem C7_counterexample :
    is_valid_date_string "2024-1-1" = true ∧ isExactYyyyMmDdForm "2024-1-1" = false := by
  constructor <;> decide

theorem C7_witness :
    is_valid_date_string "2024-02-29" = true ↔
      ∃ y m d, parse3Ints "2024-02-29".data = some (y, m, d) ∧
        1900 ≤ y ∧ y ≤ 3000 ∧ 1 ≤ m ∧ m ≤ 12 ∧ 1 ≤ d ∧ d ≤ daysInMonth y m :=
  C7_accepts_exactly_real_dates "2024-02-29"

/-! ## The relational state

Rows carry exactly the columns the engine reads or writes; the text
attributes of Books/Members (title, author, name, ...) take no part in any
circulation decision and are omitted. -/

structure Book where
  book_id : Int
  quantity : Int
  available : Int
deriving DecidableEq

structure Loan where
  loan_id : Int
  book_id : Int
  member_id : Int
  loan_date : String
  due_date : String
  is_returned : Bool
deriving DecidableEq

structure ReturnRow where
  return_id : Int
  loan_id : Int
  return_date : String
  overdue_days : Int
deriving DecidableEq

/-- SQLite's own date parser (date.c parseYyyyMmDd), used by julianday():
exactly the ten-character zero-padded form with month 1..12 and day 1..31;
it is stricter than the engine's sscanf-based parser. -/
def sqliteDateParse (s : String) : Option (Int × Int × Int) :=
  match s.data with
  | [a, b, c, d, e, f, g, h, i, j] =>
    if a.isDigit && b.isDigit && c.isDigit && d.isDigit && e == '-' &&
       f.isDigit && g.isDigit && h == '-' && i.isDigit && j.isDigit then
      if 1 ≤ (valDigits [f, g] : Int) ∧ (valDigits [f, g] : Int) ≤ 12 ∧
          1 ≤ (valDigits [i, j] : Int) ∧ (valDigits [i, j] : Int) ≤ 31 then
        some ((valDigits [a, b, c, d] : Int), (valDigits [f, g] : Int),
          (valDigits [i, j] : Int))
      else none
    else none
  | _ => none

/-- julianday(text) up to the constant julian offset of the epoch, which
cancels in every difference the queries take: the day number of the parsed
date, NULL on a malformed string. -/
def juliandayOf (s : String) : Option Int :=
  (sqliteDateParse s).map (fun t => mktimeDayNumber t.1 t.2.1 t.2.2)

/-- Largest element of a list (the SQL MAX aggregate; NULL on empty). -/
def maxListInt : List Int → Option Int
  | [] => none
  | x :: xs =>
    match maxListInt xs with
    | none => some x
    | some mx => some (max x mx)

namespace task03

structure DB where
  books : List Book
  loans : List Loan
  returns : List ReturnRow
  next_loan_id : Int
  next_return_id : Int
deriving DecidableEq

/-- Statement-level storage failures injected at each write of the two
engine transactions (prepare/step failures of the C code). -/
structure Oracle where
  insert_loan_fails : Bool
  loan_update_avail_fails : Bool
  insert_return_fails : Bool
  update_loan_fails : Bool
  return_update_avail_fails : Bool
deriving DecidableEq

/-- check_member_overdue (src/task03/src/book.c:833): SELECT
MAX(julianday(now) - julianday(due_date)) over the member's loans whose
loan_id is NOT IN the Returns table; the C stores `days > 0 ? (int)days : 0`
(the (int) cast truncates the positive double toward zero).  In the
seconds scale: julianday(now) - julianday(due) is 86400 whole days plus
the elapsed seconds of the current day, and the cast is truncating
division by 86400. -/
def check_member_overdue (db : DB) (c : Clock) (member_id : Int) : Int :=
  let rows := db.loans.filter (fun l =>
    l.member_id == member_id && !(db.returns.any (fun r => r.loan_id == l.loan_id)))
  let vals : List Int := rows.filterMap (fun l =>
    (juliandayOf l.due_date).map
      (fun dn => 86400 * (mktimeDayNumber c.y c.m c.d - dn) + c.sec))
  match maxListInt vals with
  | none => 0
  | some secs => if secs > 0 then Int.tdiv secs 86400 else 0

/-- can_member_borrow (src/task03/src/book.c:862): 0 when the computed
overdue days are positive, 1 otherwise (the -1 statement-failure path of
the C is not modelled: the read itself does not fail in the embedding). -/
def can_member_borrow (db : DB) (c : Clock) (member_id : Int) : Int :=
  if check_member_overdue db c member_id > 0 then 0 else 1

/-- check_book_availability (src/task03/src/book.c:388): 1 when the first
matching Books row has available > 0, 0 when it has available ≤ 0, and -1
when no row matches. -/
def check_book_availability (db : DB) (book_id : Int) : Int :=
  match db.books.find? (fun b => b.book_id == book_id) with
  | some b => if b.available > 0 then 1 else 0
  | none => -1

/-- update_book_availability (src/task03/src/book.c:427): UPDATE Books SET
available = available + change WHERE book_id = ?; reports failure
(sqlite3_changes == 0) when no row matched. -/
def update_book_availability (db : DB) (book_id change : Int) : Option DB :=
  if db.books.any (fun b => b.book_id == book_id) then
    some { db with books := db.books.map (fun b =>
      if b.book_id == book_id then { b with available := b.available + change } else b) }
  else none

/-- get_loan_by_id (src/task03/src/loan.c:306): first Loans row with the
given loan_id. -/
def get_loan_by_id (db : DB) (loan_id : Int) : Option Loan :=
  db.loans.find? (fun l => l.loan_id == loan_id)

/-- get_active_loans_by_member (src/task03/src/loan.c:338): Loans rows with
the member_id and is_returned = 0, LIMIT max_count.  The ORDER BY
loan_date DESC of the query is not modelled; every property proved below
is insensitive to row order. -/
def get_active_loans_by_member (db : DB) (member_id : Int) (max_count : Nat) : List Loan :=
  (db.loans.filter (fun l => l.member_id == member_id && l.is_returned == false)).take max_count

inductive LoanError
  | memberSuspended
  | bookUnavailable
  | insertLoanFailed
  | updateFailed
  | bookNotFound
deriving DecidableEq

inductive ReturnError
  | notFound
  | alreadyReturned
  | insertReturnFailed
  | updateLoanFailed
  | updateFailed
  | bookNotFound
deriving DecidableEq

/-- process_loan (src/task03/src/loan.c:132): normalize the period,
eligibility check, availability check, then one transaction around the
Loans insert and the availability decrement; every failure after BEGIN
rolls back to the pre-transaction state.  The returned Int is the new
loan_id (sqlite3_last_insert_rowid). -/
def process_loan (db : DB) (o : Oracle) (c : Clock)
    (book_id member_id loan_period : Int) : Except LoanError Int × DB :=
  let loan_period := if loan_period ≤ 0 then 14 else loan_period
  if can_member_borrow db c member_id == 0 then (.error .memberSuspended, db)
  else if check_book_availability db book_id == 0 then (.error .bookUnavailable, db)
  else
    let loan_date := get_current_date c
    let due_date := add_days_to_date loan_date loan_period
    if o.insert_loan_fails then (.error .insertLoanFailed, db)
    else
      let loan_id := db.next_loan_id
      let db1 : DB := { db with
        loans := db.loans ++ [⟨loan_id, book_id, member_id, loan_date, due_date, false⟩],
        next_loan_id := db.next_loan_id + 1 }
      if o.loan_update_avail_fails then (.error .updateFailed, db)
      else
        match update_book_availability db1 book_id (-1) with
        | none => (.error .bookNotFound, db)
        | some db2 => (.ok loan_id, db2)

/-- process_return (src/task03/src/loan.c:206): look the loan up, reject a
second return, compute the clamped overdue days, then one transaction
around the Returns insert, the is_returned update and the availability
increment; every failure after BEGIN rolls back.  After COMMIT the C only
prints a warning with calculate_suspension_days - no further write
happens.  The returned Int is the new return_id. -/
def process_return (db : DB) (o : Oracle) (c : Clock) (loan_id : Int) :
    Except ReturnError Int × DB :=
  match get_loan_by_id db loan_id with
  | none => (.error .notFound, db)
  | some loan =>
    if loan.is_returned then (.error .alreadyReturned, db)
    else
      let return_date := get_current_date c
      let overdue_days :=
        let dd := calculate_date_diff loan.due_date return_date
        if dd < 0 then 0 else dd
      if o.insert_return_fails then (.error .insertReturnFailed, db)
      else
        let return_id := db.next_return_id
        let db1 : DB := { db with
          returns := db.returns ++ [⟨return_id, loan_id, return_date, overdue_days⟩],
          next_return_id := db.next_return_id + 1 }
        if o.update_loan_fails then (.error .updateLoanFailed, db)
        else
          let db2 : DB := { db1 with loans := db1.loans.map (fun l =>
            if l.loan_id == loan_id then { l with is_returned := true } else l) }
          if o.return_update_avail_fails then (.error .updateFailed, db)
          else
            match update_book_availability db2 loan.book_id 1 with
            | none => (.error .bookNotFound, db)
            | some db3 => (.ok return_id, db3)

end task03

namespace task04

/-- Member row of task04 (the repository's design document gives Members a
stored penalty_days column that task04's eligibility check reads). -/
structure Member where
  member_id : Int
  penalty_days : Int
deriving DecidableEq

structure DB where
  books : List Book
  members : List Member
  loans : List Loan
  returns : List ReturnRow
  next_loan_id : Int
  next_return_id : Int
deriving DecidableEq

/-- Statement-level storage failures of the task04 transactions. -/
structure Oracle where
  insert_loan_fails : Bool
  update_book_fails : Bool
  update_loan_fails : Bool
  insert_return_fails : Bool
  record_penalty_io_fails : Bool
deriving DecidableEq

/-- get_loan_by_id (src/task04/src/loan.c:281). -/
def get_loan_by_id (db : DB) (loan_id : Int) : Option Loan :=
  db.loans.find? (fun l => l.loan_id == loan_id)

/-- is_book_available (src/task04/src/loan.c:318): 1 / 0 / -1 exactly as
task03's check_book_availability. -/
def is_book_available (db : DB) (book_id : Int) : Int :=
  match db.books.find? (fun b => b.book_id == book_id) with
  | some b => if b.available > 0 then 1 else 0
  | none => -1

/-- Modelled from the spec: task04's member.c is not among the sources.
check_penalty_status reads the member's stored penalty_days (the design
document's "SELECT penalty_days"), reporting failure when the member row
does not exist. -/
def check_penalty_status (db : DB) (member_id : Int) : Option Int :=
  (db.members.find? (fun mb => mb.member_id == member_id)).map (fun mb => mb.penalty_days)

/-- is_member_eligible_to_loan (src/task04/src/loan.c:338): 1 when the
stored penalty is ≤ 0, 0 when positive, -1 when the member is missing. -/
def is_member_eligible_to_loan (db : DB) (member_id : Int) : Int :=
  match check_penalty_status db member_id with
  | none => -1
  | some p => if p ≤ 0 then 1 else 0

/-- Modelled from the spec: task04's member.c is not among the sources.
record_penalty realizes the Member Penalty Accessor contract
apply_suspension(member_id, days) - it stores the suspension days on the
member row (the design document's "UPDATE Members (penalty_days)") and
fails when no such member exists. -/
def record_penalty (db : DB) (member_id days : Int) : Option DB :=
  if db.members.any (fun mb => mb.member_id == member_id) then
    some { db with members := db.members.map (fun mb =>
      if mb.member_id == member_id then { mb with penalty_days := days } else mb) }
  else none

inductive LoanErr
  | bookUnavailable
  | memberNotEligible
  | insertFailed
  | updateFailed
deriving DecidableEq

inductive RetErr
  | notFound
  | alreadyReturned
  | updateLoanFailed
  | insertReturnFailed
  | updateBookFailed
  | penaltyFailed
deriving DecidableEq

/-- loan_book (src/task04/src/loan.c:9): availability check, eligibility
check, then one transaction around the Loans insert and the Books
availability decrement (task04 issues the UPDATE directly and does not
inspect sqlite3_changes). -/
def loan_book (db : DB) (o : Oracle) (c : Clock)
    (book_id member_id loan_days : Int) : Except LoanErr Unit × DB :=
  if is_book_available db book_id != 1 then (.error .bookUnavailable, db)
  else if is_member_eligible_to_loan db member_id != 1 then (.error .memberNotEligible, db)
  else
    let loan_date := get_date_string c 0
    let due_date := get_date_string c loan_days
    if o.insert_loan_fails then (.error .insertFailed, db)
    else
      let db1 : DB := { db with
        loans := db.loans ++ [⟨db.next_loan_id, book_id, member_id, loan_date, due_date, false⟩],
        next_loan_id := db.next_loan_id + 1 }
      if o.update_book_fails then (.error .updateFailed, db)
      else
        (.ok (), { db1 with books := db1.books.map (fun b =>
          if b.book_id == book_id then { b with available := b.available - 1 } else b) })

/-- return_book (src/task04/src/loan.c:94): one transaction around the
is_returned update, the Returns insert (column days_overdue), the
availability increment and - only when days_overdue > 0 - the penalty
write penalty_days = days_overdue * 2 via record_penalty; a failing
penalty write rolls the whole return back. -/
def return_book (db : DB) (o : Oracle) (c : Clock) (loan_id : Int) :
    Except RetErr Unit × DB :=
  match get_loan_by_id db loan_id with
  | none => (.error .notFound, db)
  | some loan =>
    if loan.is_returned then (.error .alreadyReturned, db)
    else
      let return_date := get_date_string c 0
      let days_overdue := calculate_overdue_days loan.due_date return_date
      if o.update_loan_fails then (.error .updateLoanFailed, db)
      else
        let db1 : DB := { db with loans := db.loans.map (fun l =>
          if l.loan_id == loan_id then { l with is_returned := true } else l) }
        if o.insert_return_fails then (.error .insertReturnFailed, db)
        else
          let db2 : DB := { db1 with
            returns := db1.returns ++ [⟨db1.next_return_id, loan_id, return_date, days_overdue⟩],
            next_return_id := db1.next_return_id + 1 }
          if o.update_book_fails then (.error .updateBookFailed, db)
          else
            let db3 : DB := { db2 with books := db2.books.map (fun b =>
              if b.book_id == loan.book_id then { b with available := b.available + 1 } else b) }
            if days_overdue > 0 then
              if o.record_penalty_io_fails then (.error .penaltyFailed, db)
              else
                match record_penalty db3 loan.member_id (days_overdue * 2) with
                | none => (.error .penaltyFailed, db)
                | some db4 => (.ok (), db4)
            else (.ok (), db3)

end task04

/-! ## Claims about the circulation engine -/

/-- The all-successful storage oracle. -/
def oracle03 : task03.Oracle := ⟨false, false, false, false, false⟩

/-- A fixed clock: 2024-01-20, midnight. -/
def clock0 : Clock := { y := 2024, m := 1, d := 20, sec := 0 }

/-- C5: when the member's computed current overdue days are positive,
process_loan fails with the member-suspended error, detected before any
write: the returned state is exactly the input state. -/
theorem C5_suspended_member_rejected (db : task03.DB) (o : task03.Oracle) (c : Clock)
    (book_id member_id loan_period : Int)
    (h : task03.check_member_overdue db c member_id > 0) :
    task03.process_loan db o c book_id member_id loan_period =
      (Except.error task03.LoanError.memberSuspended, db) := by
  unfold task03.process_loan task03.can_member_borrow
  rw [if_pos h]
  simp

/-- A database in which member 7 holds one open loan 14 days past due on
2024-01-20. -/
def dbSuspended : task03.DB :=
  ⟨[⟨3, 2, 1⟩], [⟨1, 3, 7, "2024-01-01", "2024-01-06", false⟩], [], 2, 1⟩

theorem C5_witness :
    task03.process_loan dbSuspended oracle03 clock0 3 7 14 =
      (Except.error task03.LoanError.memberSuspended, dbSuspended) :=
  C5_suspended_member_rejected dbSuspended oracle03 clock0 3 7 14 (by decide)

/-- C6: with an eligible member, issuing against a book row whose
available count is 0 fails with the book-unavailable error and leaves the
state untouched; issuing against a book_id with no row at all fails with
the distinct book-not-found error (raised by the UPDATE matching no rows
inside the transaction) and the rollback also leaves the state untouched;
in both cases no Loan row survives, and the two errors are distinct
values. -/
theorem C6_unavailable_vs_missing (db : task03.DB) (o : task03.Oracle) (c : Clock)
    (book_id member_id loan_period : Int)
    (helig : task03.can_member_borrow db c member_id = 1) :
    (∀ bk, db.books.find? (fun b => b.book_id == book_id) = some bk → bk.available = 0 →
      task03.process_loan db o c book_id member_id loan_period =
        (Except.error task03.LoanError.bookUnavailable, db)) ∧
    (db.books.find? (fun b => b.book_id == book_id) = none →
      o.insert_loan_fails = false → o.loan_update_avail_fails = false →
      task03.process_loan db o c book_id member_id loan_period =
        (Except.error task03.LoanError.bookNotFound, db)) ∧
    task03.LoanError.bookUnavailable ≠ task03.LoanError.bookNotFound := by
  refine ⟨?_, ?_, by simp⟩
  · intro bk hfind havail
    unfold task03.process_loan
    rw [helig]
    have hb : task03.check_book_availability db book_id = 0 := by
      unfold task03.check_book_availability
      rw [hfind]
      show (if bk.available > 0 then (1 : Int) else 0) = 0
      rw [havail]
      norm_num
    rw [hb]
    simp
  · intro hnone hins hupd
    unfold task03.process_loan
    rw [helig]
    have hb : task03.check_book_availability db book_id = -1 := by
      unfold task03.check_book_availability
      rw [hnone]
    rw [hb]
    have hany : db.books.any (fun b => b.book_id == book_id) = false := by
      rw [List.any_eq_false]
      intro b hbmem
      have := List.find?_eq_none.mp hnone b hbmem
      simpa using this
    have hup : task03.update_book_availability
        { db with
          loans := db.loans ++ [⟨db.next_loan_id, book_id, member_id, get_current_date c,
            add_days_to_date (get_current_date c)
              (if loan_period ≤ 0 then 14 else loan_period), false⟩],
          next_loan_id := db.next_loan_id + 1 } book_id (-1) = none := by
      unfold task03.update_book_availability
      rw [if_neg]
      simp only [hany]
      simp
    simp only [hins, hupd, Bool.false_eq_true, if_false]
    rw [hup]
    simp

/-- A database with an eligible member 7, one zero-available book 3 and no
row for book 4. -/
def dbUnavailable : task03.DB := ⟨[⟨3, 2, 0⟩], [], [], 1, 1⟩

theorem C6_witness :
    (∀ bk, dbUnavailable.books.find? (fun b => b.book_id == 3) = some bk →
      bk.available = 0 →
      task03.process_loan dbUnavailable oracle03 clock0 3 7 14 =
        (Except.error task03.LoanError.bookUnavailable, dbUnavailable)) ∧
    (dbUnavailable.books.find? (fun b => b.book_id == 4) = none →
      oracle03.insert_loan_fails = false → oracle03.loan_update_avail_fails = false →
      task03.process_loan dbUnavailable oracle03 clock0 4 7 14 =
        (Except.error task03.LoanError.bookNotFound, dbUnavailable)) ∧
    task03.LoanError.bookUnavailable ≠ task03.LoanError.bookNotFound := by
  refine ⟨?_, ?_, ?_⟩
  · exact (C6_unavailable_vs_missing dbUnavailable oracle03 clock0 3 7 14 (by decide)).1
  · exact (C6_unavailable_vs_missing dbUnavailable oracle03 clock0 4 7 14 (by decide)).2.1
  · exact (C6_unavailable_vs_missing dbUnavailable oracle03 clock0 4 7 14 (by decide)).2.2

/-- C3: process_loan is all-or-nothing.  Every error outcome returns the
pre-call state unchanged (each failure after the Loans insert rolls the
insert back), and the success outcome commits exactly the new open Loan
row (id = next_loan_id, is_returned = false) together with the single
availability decrement of that book; task04's loan_book satisfies the
same contract. -/
theorem C3_issue_loan_atomic (db : task03.DB) (o : task03.Oracle) (c : Clock)
    (book_id member_id loan_period : Int)
    (db4 : task04.DB) (o4 : task04.Oracle) (loan_days : Int) :
    (∀ e db', task03.process_loan db o c book_id member_id loan_period = (.error e, db') →
      db' = db) ∧
    (∀ lid db', task03.process_loan db o c book_id member_id loan_period = (.ok lid, db') →
      lid = db.next_loan_id ∧
      db'.loans = db.loans ++ [⟨db.next_loan_id, book_id, member_id, get_current_date c,
        add_days_to_date (get_current_date c)
          (if loan_period ≤ 0 then 14 else loan_period), false⟩] ∧
      db'.returns = db.returns ∧
      db'.books = db.books.map (fun b => if b.book_id == book_id then
        { b with available := b.available + (-1) } else b) ∧
      db'.next_loan_id = db.next_loan_id + 1 ∧
      db'.next_return_id = db.next_return_id) ∧
    (∀ e db', task04.loan_book db4 o4 c book_id member_id loan_days = (.error e, db') →
      db' = db4) ∧
    (∀ u db', task04.loan_book db4 o4 c book_id member_id loan_days = (.ok u, db') →
      db'.loans = db4.loans ++ [⟨db4.next_loan_id, book_id, member_id, get_date_string c 0,
        get_date_string c loan_days, false⟩] ∧
      db'.returns = db4.returns ∧
      db'.members = db4.members ∧
      db'.books = db4.books.map (fun b => if b.book_id == book_id then
        { b with available := b.available - 1 } else b) ∧
      db'.next_loan_id = db4.next_loan_id + 1 ∧
      db'.next_return_id = db4.next_return_id) := by
  refine ⟨?_, ?_, ?_, ?_⟩
  · intro e db' h
    unfold task03.process_loan task03.update_book_availability at h
    try (simp only [] at h)
    cases hg1 : (task03.can_member_borrow db c member_id == 0) <;> rw [hg1] at h
    all_goals try (cases hg2 : (task03.check_book_availability db book_id == 0) <;> rw [hg2] at h)
    all_goals try (cases hb1 : o.insert_loan_fails <;> rw [hb1] at h)
    all_goals try (cases hb2 : o.loan_update_avail_fails <;> rw [hb2] at h)
    all_goals try (cases hany : db.books.any (fun b => b.book_id == book_id) <;> rw [hany] at h)
    all_goals simp at h
    all_goals exact h.2.symm
  · intro lid db' h
    unfold task03.process_loan task03.update_book_availability at h
    try (simp only [] at h)
    cases hg1 : (task03.can_member_borrow db c member_id == 0) <;> rw [hg1] at h
    all_goals try (cases hg2 : (task03.check_book_availability db book_id == 0) <;> rw [hg2] at h)
    all_goals try (cases hb1 : o.insert_loan_fails <;> rw [hb1] at h)
    all_goals try (cases hb2 : o.loan_update_avail_fails <;> rw [hb2] at h)
    all_goals try (cases hany : db.books.any (fun b => b.book_id == book_id) <;> rw [hany] at h)
    all_goals simp at h
    obtain ⟨hl, hdb⟩ := h
    subst hdb
    refine ⟨hl.symm, ?_, rfl, ?_, rfl, rfl⟩ <;> simp
  · intro e db' h
    unfold task04.loan_book at h
    try (simp only [] at h)
    cases hg1 : (task04.is_book_available db4 book_id != 1) <;> rw [hg1] at h
    all_goals try (cases hg2 : (task04.is_member_eligible_to_loan db4 member_id != 1) <;>
      rw [hg2] at h)
    all_goals try (cases hb1 : o4.insert_loan_fails <;> rw [hb1] at h)
    all_goals try (cases hb2 : o4.update_book_fails <;> rw [hb2] at h)
    all_goals simp at h
    all_goals exact h.2.symm
  · intro u db' h
    unfold task04.loan_book at h
    try (simp only [] at h)
    cases hg1 : (task04.is_book_available db4 book_id != 1) <;> rw [hg1] at h
    all_goals try (cases hg2 : (task04.is_member_eligible_to_loan db4 member_id != 1) <;>
      rw [hg2] at h)
    all_goals try (cases hb1 : o4.insert_loan_fails <;> rw [hb1] at h)
    all_goals try (cases hb2 : o4.update_book_fails <;> rw [hb2] at h)
    all_goals simp at h
    subst h
    refine ⟨?_, rfl, rfl, ?_, rfl, rfl⟩ <;> simp

/-- The all-successful task04 storage oracle. -/
def oracle04 : task04.Oracle := ⟨false, false, false, false, false⟩

/-- A database with one available copy of book 3 and no loans. -/
def dbIssue : task03.DB := ⟨[⟨3, 2, 1⟩], [], [], 1, 1⟩

/-- Task04 state: one available copy of book 3, member 7 without penalty. -/
def dbIssue04 : task04.DB := ⟨[⟨3, 2, 1⟩], [⟨7, 0⟩], [], [], 1, 1⟩

theorem C3_witness :
    (task03.process_loan dbIssue oracle03 clock0 3 7 14).2.books =
      dbIssue.books.map (fun b => if b.book_id == 3 then
        { b with available := b.available + (-1) } else b) :=
  ((C3_issue_loan_atomic dbIssue oracle03 clock0 3 7 14 dbIssue04 oracle04 14).2.1
    1 (task03.process_loan dbIssue oracle03 clock0 3 7 14).2 (by rfl)).2.2.2.1

theorem maxListInt_mem_le {x : Int} {xs : List Int} (hx : x ∈ xs) :
    ∃ mx, maxListInt xs = some mx ∧ x ≤ mx := by
  induction xs with
  | nil => simp at hx
  | cons a t ih =>
    unfold maxListInt
    cases hmt : maxListInt t with
    | none =>
      rcases List.mem_cons.mp hx with rfl | hxt
      · exact ⟨x, rfl, le_refl x⟩
      · obtain ⟨mx, hmx, -⟩ := ih hxt
        rw [hmx] at hmt
        cases hmt
    | some mt =>
      rcases List.mem_cons.mp hx with rfl | hxt
      · exact ⟨max x mt, rfl, le_max_left x mt⟩
      · obtain ⟨mx, hmx, hle⟩ := ih hxt
        rw [hmx] at hmt
        obtain rfl := Option.some.inj hmt
        exact ⟨max a mx, rfl, le_trans hle (le_max_right a mx)⟩

theorem filterMap_ignore_flag (xs : List Loan) (flags : Loan → Bool)
    (p : Loan → Bool) (g : Loan → Option Int)
    (hp : ∀ l, p { l with is_returned := flags l } = p l)
    (hg : ∀ l, g { l with is_returned := flags l } = g l) :
    ((xs.map (fun l => { l with is_returned := flags l })).filter p).filterMap g =
      (xs.filter p).filterMap g := by
  induction xs with
  | nil => rfl
  | cons x t ih =>
    simp only [List.map_cons, List.filter_cons, hp]
    by_cases hx : p x = true
    · simp only [hx, if_true, List.filterMap_cons, hg, ih]
    · simp only [hx, Bool.false_eq_true, if_false, ih]

/-- C9: the eligibility computation treats a loan as open exactly when no
Returns row references it and never consults the is_returned flag, while
the active-loan listing filters on the flag and never consults the Returns
table; in a state where the two disagree - a loan flagged returned with no
Return row, at least one day past due - the Returns table governs the
suspension (overdue days stay positive) and the flag governs the listing
(the loan is absent from it). -/
theorem C9_returns_vs_flag (db : task03.DB) (c : Clock) (m : Int)
    (flags : Loan → Bool) (rs : List ReturnRow) (mc : Nat) :
    (task03.check_member_overdue
        { db with loans := db.loans.map (fun l => { l with is_returned := flags l }) } c m =
      task03.check_member_overdue db c m) ∧
    (task03.get_active_loans_by_member { db with returns := rs } m mc =
      task03.get_active_loans_by_member db m mc) ∧
    (∀ l ∈ db.loans, l.member_id = m → l.is_returned = true →
      (∀ r ∈ db.returns, r.loan_id ≠ l.loan_id) →
      ∀ dn, juliandayOf l.due_date = some dn →
        dn + 1 ≤ mktimeDayNumber c.y c.m c.d → 0 ≤ c.sec →
        task03.check_member_overdue db c m > 0 ∧
        l ∉ task03.get_active_loans_by_member db m mc) := by
  refine ⟨?_, rfl, ?_⟩
  · have hrw := filterMap_ignore_flag db.loans flags
      (fun l2 => l2.member_id == m && !(db.returns.any (fun r => r.loan_id == l2.loan_id)))
      (fun l2 => (juliandayOf l2.due_date).map
        (fun dn2 => 86400 * (mktimeDayNumber c.y c.m c.d - dn2) + c.sec))
      (fun l => rfl) (fun l => rfl)
    simp only [task03.check_member_overdue]
    rw [hrw]
  · intro l hl hm hflag hnoret dn hdn hpast hsec
    constructor
    · have hany : db.returns.any (fun r => r.loan_id == l.loan_id) = false := by
        rw [List.any_eq_false]
        intro r hr
        simpa using hnoret r hr
      have hlrow : l ∈ db.loans.filter (fun l2 =>
          l2.member_id == m && !(db.returns.any (fun r => r.loan_id == l2.loan_id))) := by
        rw [List.mem_filter]
        exact ⟨hl, by simp [hm, hany]⟩
      have hval : (86400 * (mktimeDayNumber c.y c.m c.d - dn) + c.sec) ∈
          (db.loans.filter (fun l2 =>
            l2.member_id == m && !(db.returns.any (fun r => r.loan_id == l2.loan_id)))).filterMap
            (fun l2 => (juliandayOf l2.due_date).map
              (fun dn2 => 86400 * (mktimeDayNumber c.y c.m c.d - dn2) + c.sec)) := by
        rw [List.mem_filterMap]
        exact ⟨l, hlrow, by rw [hdn]; rfl⟩
      obtain ⟨mx, hmx, hle⟩ := maxListInt_mem_le hval
      simp only [task03.check_member_overdue]
      rw [hmx]
      have hmxpos : 86400 ≤ mx := by omega
      show (if mx > 0 then Int.tdiv mx 86400 else 0) > 0
      rw [if_pos (by omega : mx > 0)]
      rw [Int.tdiv_eq_ediv (by omega : (0:Int) ≤ mx) (by omega : (0:Int) ≤ 86400)]
      omega
    · intro hmem
      unfold task03.get_active_loans_by_member at hmem
      have := List.take_subset mc _ hmem
      rw [List.mem_filter] at this
      have hb := this.2
      rw [hflag] at hb
      simp at hb

/-- A divergent state: loan 1 of member 7 is flagged returned but has no
Returns row and is two weeks past due. -/
def dbDivergent : task03.DB :=
  ⟨[⟨3, 2, 1⟩], [⟨1, 3, 7, "2024-01-01", "2024-01-06", true⟩], [], 2, 1⟩

theorem C9_witness :
    task03.check_member_overdue dbDivergent clock0 7 > 0 ∧
    (⟨1, 3, 7, "2024-01-01", "2024-01-06", true⟩ : Loan) ∉
      task03.get_active_loans_by_member dbDivergent 7 100 :=
  (C9_returns_vs_flag dbDivergent clock0 7 (fun l => l.is_returned) [] 100).2.2
    ⟨1, 3, 7, "2024-01-01", "2024-01-06", true⟩ (by decide) (by decide) (by decide)
    (by decide) (mktimeDayNumber 2024 1 6) (by decide) (by decide) (by decide)

/-- C10: malformed date strings are silently defaulted, never rejected:
both modules' day-difference helpers return 0 when either argument fails
the sscanf "%d-%d-%d" parse, the add-days helper copies its input
unchanged, and consequently a return processed against a loan whose stored
due_date is malformed succeeds and records overdue_days = 0 instead of
failing with any invalid-format error. -/
theorem C10_malformed_dates_default (s t : String) (n : Int)
    (hbad : parse3Ints s.data = none)
    (db : task03.DB) (o : task03.Oracle) (c : Clock) (lid : Int) (loan : Loan)
    (hfind : task03.get_loan_by_id db lid = some loan)
    (hdue : loan.due_date = s) (hopen : loan.is_returned = false)
    (hins : o.insert_return_fails = false) (hupd : o.update_loan_fails = false)
    (hava : o.return_update_avail_fails = false)
    (hbook : db.books.any (fun b => b.book_id == loan.book_id) = true) :
    calculate_date_diff s t = 0 ∧
    calculate_date_diff t s = 0 ∧
    add_days_to_date s n = s ∧
    date_difference s t = 0 ∧
    date_difference t s = 0 ∧
    (task03.process_return db o c lid).1 = .ok db.next_return_id ∧
    (task03.process_return db o c lid).2.returns =
      db.returns ++ [⟨db.next_return_id, lid, get_current_date c, 0⟩] := by
  have hdiff1 : calculate_date_diff s t = 0 := by
    unfold calculate_date_diff
    rw [hbad]
  have hdiff2 : calculate_date_diff t s = 0 := by
    unfold calculate_date_diff
    cases hp : parse3Ints t.data with
    | none => rfl
    | some v =>
      obtain ⟨y1, m1, d1⟩ := v
      rw [hbad]
  have hadd : add_days_to_date s n = s := by
    unfold add_days_to_date
    rw [hbad]
  have hdd1 : date_difference s t = 0 := by
    unfold date_difference
    rw [hbad]
  have hdd2 : date_difference t s = 0 := by
    unfold date_difference
    cases hp : parse3Ints t.data with
    | none => rfl
    | some v =>
      obtain ⟨y1, m1, d1⟩ := v
      rw [hbad]
  have hdiffdue : calculate_date_diff loan.due_date (get_current_date c) = 0 := by
    rw [hdue]
    unfold calculate_date_diff
    rw [hbad]
  have heval : task03.process_return db o c lid =
      (Except.ok db.next_return_id,
        { books := db.books.map (fun b => if b.book_id == loan.book_id then
            { b with available := b.available + 1 } else b),
          loans := db.loans.map (fun l =>
            if l.loan_id == lid then { l with is_returned := true } else l),
          returns := db.returns ++ [⟨db.next_return_id, lid, get_current_date c, 0⟩],
          next_loan_id := db.next_loan_id,
          next_return_id := db.next_return_id + 1 }) := by
    unfold task03.process_return task03.update_book_availability
    rw [hfind]
    simp only [hopen, Bool.false_eq_true, if_false, hdiffdue, hins, hupd, hava, hbook, if_true,
      lt_self_iff_false]
  refine ⟨hdiff1, hdiff2, hadd, hdd1, hdd2, ?_, ?_⟩ <;> rw [heval]

/-- Loan 1 of member 7 carries a malformed due_date. -/
def dbMalformed : task03.DB :=
  ⟨[⟨3, 2, 1⟩], [⟨1, 3, 7, "2024-01-01", "not-a-date", false⟩], [], 2, 1⟩

theorem C10_witness :
    calculate_date_diff "not-a-date" "2024-01-20" = 0 ∧
    calculate_date_diff "2024-01-20" "not-a-date" = 0 ∧
    add_days_to_date "not-a-date" 5 = "not-a-date" ∧
    date_difference "not-a-date" "2024-01-20" = 0 ∧
    date_difference "2024-01-20" "not-a-date" = 0 ∧
    (task03.process_return dbMalformed oracle03 clock0 1).1 = .ok dbMalformed.next_return_id ∧
    (task03.process_return dbMalformed oracle03 clock0 1).2.returns =
      dbMalformed.returns ++
        [⟨dbMalformed.next_return_id, 1, get_current_date clock0, 0⟩] :=
  C10_malformed_dates_default "not-a-date" "2024-01-20" 5 (by rfl)
    dbMalformed oracle03 clock0 1 ⟨1, 3, 7, "2024-01-01", "not-a-date", false⟩
    (by rfl) rfl rfl rfl rfl rfl (by rfl)

/-- C1 (amended): in task04's return_book the penalty write is part of the
atomic unit: when the computed days_overdue are positive, a failing
record_penalty (I/O failure or missing member row) makes the whole return
roll back to the pre-call state, and on success the Return insert, the
is_returned update, the availability increment and the stored penalty of
days_overdue * 2 commit together.  (In task03's process_return no
persistent penalty exists at all - see the counterexample.) -/
theorem C1_task04_penalty_atomic (db : task04.DB) (o : task04.Oracle) (c : Clock)
    (lid : Int) (loan : Loan)
    (hfind : task04.get_loan_by_id db lid = some loan)
    (hopen : loan.is_returned = false)
    (hodue : calculate_overdue_days loan.due_date (get_date_string c 0) > 0)
    (hu : o.update_loan_fails = false) (hi : o.insert_return_fails = false)
    (hb : o.update_book_fails = false) :
    ((o.record_penalty_io_fails = true ∨
        db.members.any (fun mb => mb.member_id == loan.member_id) = false) →
      task04.return_book db o c lid = (.error .penaltyFailed, db)) ∧
    (o.record_penalty_io_fails = false →
      db.members.any (fun mb => mb.member_id == loan.member_id) = true →
      task04.return_book db o c lid = (.ok (),
        { books := db.books.map (fun b => if b.book_id == loan.book_id then
            { b with available := b.available + 1 } else b),
          members := db.members.map (fun mb => if mb.member_id == loan.member_id then
            { mb with penalty_days :=
              calculate_overdue_days loan.due_date (get_date_string c 0) * 2 } else mb),
          loans := db.loans.map (fun l =>
            if l.loan_id == lid then { l with is_returned := true } else l),
          returns := db.returns ++ [⟨db.next_return_id, lid, get_date_string c 0,
            calculate_overdue_days loan.due_date (get_date_string c 0)⟩],
          next_loan_id := db.next_loan_id,
          next_return_id := db.next_return_id + 1 })) := by
  constructor
  · intro hfail
    unfold task04.return_book task04.record_penalty
    rw [hfind]
    rcases hfail with hio | hmiss
    · simp only [hopen, Bool.false_eq_true, if_false, hu, hi, hb, if_pos hodue, hio, if_true]
    · simp only [hopen, Bool.false_eq_true, if_false, hu, hi, hb, if_pos hodue, hmiss]
      cases hio : o.record_penalty_io_fails with
      | true => simp only [if_true]
      | false => simp only [Bool.false_eq_true, if_false]
  · intro hio hmem
    unfold task04.return_book task04.record_penalty
    rw [hfind]
    simp only [hopen, Bool.false_eq_true, if_false, hu, hi, hb, if_pos hodue, hio, hmem, if_true]

/-- C1 counterexample (task03): an overdue return commits successfully,
records overdue_days = 14 on the Return row, and immediately afterwards
the member is eligible to borrow again - no persistent penalty state was
written inside (or outside) the transaction, so no failing penalty write
can ever roll a return back in task03. -/
theorem C1_counterexample :
    (task03.process_return dbSuspended oracle03 clock0 1).1 = .ok 1 ∧
    (task03.process_return dbSuspended oracle03 clock0 1).2.returns =
      [⟨1, 1, "2024-01-20", 14⟩] ∧
    task03.check_member_overdue dbSuspended clock0 7 > 0 ∧
    task03.can_member_borrow (task03.process_return dbSuspended oracle03 clock0 1).2 clock0 7
      = 1 := by
  exact ⟨by rfl, by decide, by decide, by decide⟩

/-- Task04 state for an overdue return: loan 1 of member 7, due
2024-01-06, open; member row present with no penalty. -/
def dbRet04 : task04.DB :=
  ⟨[⟨3, 2, 1⟩], [⟨7, 0⟩], [⟨1, 3, 7, "2024-01-01", "2024-01-06", false⟩], [], 2, 1⟩

theorem C1_witness :
    task04.return_book dbRet04 oracle04 clock0 1 = (.ok (),
      { books := dbRet04.books.map (fun b => if b.book_id == 3 then
          { b with available := b.available + 1 } else b),
        members := dbRet04.members.map (fun mb => if mb.member_id == 7 then
          { mb with penalty_days :=
            calculate_overdue_days "2024-01-06" (get_date_string clock0 0) * 2 } else mb),
        loans := dbRet04.loans.map (fun l =>
          if l.loan_id == 1 then { l with is_returned := true } else l),
        returns := dbRet04.returns ++ [⟨dbRet04.next_return_id, 1, get_date_string clock0 0,
          calculate_overdue_days "2024-01-06" (get_date_string clock0 0)⟩],
        next_loan_id := dbRet04.next_loan_id,
        next_return_id := dbRet04.next_return_id + 1 }) :=
  (C1_task04_penalty_atomic dbRet04 oracle04 clock0 1
      ⟨1, 3, 7, "2024-01-01", "2024-01-06", false⟩
      (by rfl) rfl (by decide) rfl rfl rfl).2 rfl (by rfl)

theorem scanInt_digit_run (ds rest : List Char) (hds : ∀ ch ∈ ds, ch.isDigit = true)
    (hne : ds ≠ []) (hr : noLeadDigit rest) :
    scanInt (ds ++ rest) = some ((valDigits ds : Int), rest) := by
  cases ds with
  | nil => exact absurd rfl hne
  | cons ch cs =>
    have hcd : ch.isDigit = true := hds ch (by simp)
    unfold scanInt
    rw [List.cons_append, skipWs_cons_of_not _ _ (not_ws_of_digit hcd)]
    simp only [digit_beq_dash hcd, digit_beq_plus hcd, Bool.false_eq_true, if_false]
    rw [← List.cons_append, scanNat_spec _ _ hds hne hr]
    rfl

/-- Agreement of SQLite's strict date parser with the engine's sscanf
parser: every string SQLite accepts parses to the same three components,
which moreover lie in the coarse ranges SQLite enforces. -/
theorem parse3Ints_of_sqlite {s : String} {y mo dd : Int}
    (h : sqliteDateParse s = some (y, mo, dd)) :
    parse3Ints s.data = some (y, mo, dd) ∧
    0 ≤ y ∧ 1 ≤ mo ∧ mo ≤ 12 ∧ 1 ≤ dd ∧ dd ≤ 31 := by
  unfold sqliteDateParse at h
  split at h
  case h_2 => exact absurd h (by simp)
  case h_1 a b c d e f g hh i j heq =>
    split at h
    case isFalse => exact absurd h (by simp)
    case isTrue hdig =>
      split at h
      case isFalse => exact absurd h (by simp)
      case isTrue hrange =>
        simp only [Option.some.injEq, Prod.mk.injEq] at h
        obtain ⟨hy, hm, hd⟩ := h
        simp only [Bool.and_eq_true, beq_iff_eq] at hdig
        obtain ⟨⟨⟨⟨⟨⟨⟨⟨⟨ha, hb⟩, hc⟩, hd4⟩, he⟩, hf⟩, hg⟩, hhd⟩, hi⟩, hj⟩ := hdig
        subst he hhd
        rw [heq]
        have hrun1 : scanInt ([a, b, c, d] ++ '-' :: f :: g :: '-' :: i :: j :: []) =
            some ((valDigits [a, b, c, d] : Int), '-' :: f :: g :: '-' :: i :: j :: []) :=
          scanInt_digit_run [a, b, c, d] _
            (by intro ch hch; simp at hch; rcases hch with rfl | rfl | rfl | rfl <;> assumption)
            (by simp) (by show ('-').isDigit = false; decide)
        have hrun2 : scanInt ([f, g] ++ '-' :: i :: j :: []) =
            some ((valDigits [f, g] : Int), '-' :: i :: j :: []) :=
          scanInt_digit_run [f, g] _
            (by intro ch hch; simp at hch; rcases hch with rfl | rfl <;> assumption)
            (by simp) (by show ('-').isDigit = false; decide)
        have hrun3 : scanInt ([i, j] ++ ([] : List Char)) =
            some ((valDigits [i, j] : Int), ([] : List Char)) :=
          scanInt_digit_run [i, j] _
            (by intro ch hch; simp at hch; rcases hch with rfl | rfl <;> assumption)
            (by simp) trivial
        refine ⟨?_, by omega, by omega, by omega, by omega, by omega⟩
        unfold parse3Ints
        rw [show (a :: b :: c :: d :: '-' :: f :: g :: '-' :: i :: j :: [] : List Char) =
          [a, b, c, d] ++ '-' :: f :: g :: '-' :: i :: j :: [] from rfl]
        rw [hrun1]
        simp only [show ('-' == '-') = true from rfl, if_true]
        rw [show (f :: g :: '-' :: i :: j :: [] : List Char) =
          [f, g] ++ '-' :: i :: j :: [] from rfl]
        rw [hrun2]
        simp only [show ('-' == '-') = true from rfl, if_true]
        rw [show (i :: j :: [] : List Char) = [i, j] ++ ([] : List Char) from rfl]
        rw [hrun3]
        rw [← hy, ← hm, ← hd]

theorem maxListInt_cons (x : Int) (l : List Int) :
    maxListInt (x :: l) = match maxListInt l with
      | none => some x
      | some mx => some (max x mx) := rfl

theorem filterMap_of_all_some (xs : List Loan) (g : Loan → Option Int) (v : Loan → Int)
    (hg : ∀ l ∈ xs, g l = some (v l)) :
    xs.filterMap g = xs.map v := by
  induction xs with
  | nil => rfl
  | cons x t ih =>
    rw [List.filterMap_cons, hg x (by simp), List.map_cons,
      ih (fun l hl => hg l (by simp [hl]))]

theorem maxListInt_affine (ks : List Int) (sec : Int) :
    maxListInt (ks.map (fun k => 86400 * k + sec)) =
      (maxListInt ks).map (fun k => 86400 * k + sec) := by
  induction ks with
  | nil => rfl
  | cons k t ih =>
    rw [List.map_cons, maxListInt_cons, maxListInt_cons, ih]
    cases maxListInt t with
    | none => rfl
    | some mt =>
      simp only [Option.map_some']
      congr 1
      omega

theorem foldl_max_eq (xs : List Loan) (F D : Loan → Int)
    (hF : ∀ l ∈ xs, F l = max (D l) 0) :
    ∀ acc, (xs.map F).foldl max acc =
      (match maxListInt (xs.map D) with
       | none => acc
       | some mx => max acc (max mx 0)) := by
  induction xs with
  | nil => intro acc; rfl
  | cons x t ih =>
    intro acc
    rw [List.map_cons, List.foldl_cons, hF x (by simp),
      ih (fun l hl => hF l (by simp [hl])) (max acc (max (D x) 0)), List.map_cons,
      maxListInt_cons]
    cases maxListInt (t.map D) with
    | none => rfl
    | some mt =>
      simp only [max_def]
      split_ifs <;> omega

theorem maxListInt_map_none_iff (xs : List Loan) (D : Loan → Int) :
    maxListInt (xs.map D) = none ↔ xs = [] := by
  cases xs with
  | nil => simp [maxListInt]
  | cons x t =>
    rw [List.map_cons, maxListInt_cons]
    cases maxListInt (t.map D) <;> simp

theorem maxListInt_affine_loans (xs : List Loan) (D : Loan → Int) (sec : Int) :
    maxListInt (xs.map (fun l => 86400 * D l + sec)) =
      (maxListInt (xs.map D)).map (fun k => 86400 * k + sec) := by
  rw [show xs.map (fun l => 86400 * D l + sec) = (xs.map D).map (fun k => 86400 * k + sec) by
    rw [List.map_map]
    rfl]
  exact maxListInt_affine (xs.map D) sec

/-- Written from the spec's words (member_overdue_days, section 4.2), for
comparison with the code: the maximum over the member's currently-open
loans of diff_days(due_date, today()) clamped to at least 0, with 0 for a
member who has no open loans. -/
def spec_member_overdue_days (db : task03.DB) (c : Clock) (m : Int) : Int :=
  ((db.loans.filter (fun l =>
      l.member_id == m && !(db.returns.any (fun r => r.loan_id == l.loan_id)))).map
    (fun l => max (calculate_date_diff l.due_date (get_current_date c)) 0)).foldl max 0

/-- C4: check_member_overdue returns exactly the spec's value - the
maximum, over the member's loans that have no Returns row, of the engine's
day difference from due date to today clamped to at least 0, and 0 when
there is no such loan.  The value is a pure function of the current Loans
and Returns rows and the clock: nothing else enters the computation, so it
is recomputed from the tables on every call. -/
theorem C4_member_overdue_recomputed (db : task03.DB) (c : Clock) (m : Int)
    (hs0 : 0 ≤ c.sec) (hs1 : c.sec < 86400)
    (hcm : 0 ≤ c.m) (hcd : 0 ≤ c.d)
    (hdue : ∀ l ∈ db.loans, (sqliteDateParse l.due_date).isSome = true) :
    task03.check_member_overdue db c m = spec_member_overdue_days db c m := by
  simp only [task03.check_member_overdue, spec_member_overdue_days]
  set rows := db.loans.filter (fun l =>
    l.member_id == m && !(db.returns.any (fun r => r.loan_id == l.loan_id))) with hrows
  have hsub : ∀ l ∈ rows, l ∈ db.loans := by
    intro l hl
    rw [hrows] at hl
    exact (List.mem_filter.mp hl).1
  have hg : ∀ l ∈ rows, (juliandayOf l.due_date).map
      (fun dn => 86400 * (mktimeDayNumber c.y c.m c.d - dn) + c.sec) =
      some (86400 * (mktimeDayNumber c.y c.m c.d - (juliandayOf l.due_date).getD 0) + c.sec) := by
    intro l hl
    obtain ⟨t, ht⟩ := Option.isSome_iff_exists.mp (hdue l (hsub l hl))
    obtain ⟨y1, mo1, dd1⟩ := t
    simp [juliandayOf, ht]
  have hF : ∀ l ∈ rows, max (calculate_date_diff l.due_date (get_current_date c)) 0 =
      max (mktimeDayNumber c.y c.m c.d - (juliandayOf l.due_date).getD 0) 0 := by
    intro l hl
    obtain ⟨t, ht⟩ := Option.isSome_iff_exists.mp (hdue l (hsub l hl))
    obtain ⟨y1, mo1, dd1⟩ := t
    obtain ⟨hp, -, -, -, -, -⟩ := parse3Ints_of_sqlite ht
    rw [calculate_date_diff_some hp
      (show parse3Ints (get_current_date c).data = some (c.y, c.m, c.d) from
        parse3Ints_formatDate c.y c.m c.d hcm hcd)]
    rw [← Int.mul_sub, Int.mul_tdiv_cancel_left _ (by norm_num)]
    simp [juliandayOf, ht]
  rw [filterMap_of_all_some rows _
    (fun l => 86400 * (mktimeDayNumber c.y c.m c.d - (juliandayOf l.due_date).getD 0) + c.sec)
    hg]
  rw [maxListInt_affine_loans rows
    (fun l => mktimeDayNumber c.y c.m c.d - (juliandayOf l.due_date).getD 0) c.sec]
  rw [foldl_max_eq rows _
    (fun l => mktimeDayNumber c.y c.m c.d - (juliandayOf l.due_date).getD 0) hF 0]
  cases hmax : maxListInt (rows.map
      (fun l => mktimeDayNumber c.y c.m c.d - (juliandayOf l.due_date).getD 0)) with
  | none => rfl
  | some mx =>
    simp only [Option.map_some']
    by_cases hpos : 86400 * mx + c.sec > 0
    · rw [if_pos hpos, Int.tdiv_eq_ediv (by omega) (by norm_num)]
      rw [max_def, max_def]
      split_ifs <;> omega
    · rw [if_neg hpos]
      rw [max_def, max_def]
      split_ifs <;> omega

theorem C4_witness :
    task03.check_member_overdue dbSuspended clock0 7 =
      spec_member_overdue_days dbSuspended clock0 7 :=
  C4_member_overdue_recomputed dbSuspended clock0 7 (by decide) (by decide) (by decide)
    (by decide) (by decide)

theorem find?_key_eq {α : Type} (key : α → Int) {l : List α}
    (hnd : l.Pairwise (fun a b2 => key a ≠ key b2)) {x : α} (hx : x ∈ l) :
    l.find? (fun a => key a == key x) = some x := by
  induction l with
  | nil => simp at hx
  | cons y t ih =>
    rcases List.pairwise_cons.mp hnd with ⟨hy, ht⟩
    by_cases hky : (key y == key x) = true
    · rw [List.find?_cons_of_pos (p := fun a => key a == key x) _ hky]
      rcases List.mem_cons.mp hx with rfl | hxt
      · rfl
      · exact absurd (beq_iff_eq.mp hky) (hy x hxt)
    · rw [List.find?_cons_of_neg (p := fun a => key a == key x) _ (by simpa using hky)]
      rcases List.mem_cons.mp hx with rfl | hxt
      · exact absurd (by simp) hky
      · exact ih ht hxt

theorem map_flag_not_mem (t : List Loan) (lid : Int)
    (h : ∀ y ∈ t, (y.loan_id == lid) = false) :
    t.map (fun l => if l.loan_id == lid then { l with is_returned := true } else l) = t := by
  induction t with
  | nil => rfl
  | cons x s ih =>
    rw [List.map_cons, ih (fun y hy => h y (by simp [hy]))]
    simp [h x (by simp)]

theorem flag_count (loans : List Loan) (lid : Int) (l0 : Loan) (b : Int)
    (hnd : loans.Pairwise (fun a b2 => a.loan_id ≠ b2.loan_id))
    (hfind : loans.find? (fun l => l.loan_id == lid) = some l0)
    (hopen : l0.is_returned = false) :
    ((loans.map (fun l => if l.loan_id == lid then { l with is_returned := true } else l)).filter
      (fun l => l.book_id == b && l.is_returned == false)).length +
      (if l0.book_id = b then 1 else 0) =
    (loans.filter (fun l => l.book_id == b && l.is_returned == false)).length := by
  induction loans with
  | nil => simp at hfind
  | cons x t ih =>
    rcases List.pairwise_cons.mp hnd with ⟨hx, ht⟩
    by_cases hk : (x.loan_id == lid) = true
    · have hx0 : l0 = x := by
        rw [List.find?_cons_of_pos (p := fun (l : Loan) => l.loan_id == lid) _ hk] at hfind
        exact (Option.some.inj hfind).symm
      subst hx0
      have hmapt : t.map (fun l =>
          if l.loan_id == lid then { l with is_returned := true } else l) = t := by
        refine map_flag_not_mem t lid (fun y hy => ?_)
        have hne := hx y hy
        rw [beq_iff_eq.mp hk] at hne
        simpa using (Ne.symm hne)
      rw [List.map_cons, hmapt]
      simp only [hk, if_true]
      rw [List.filter_cons, List.filter_cons]
      simp only [hopen]
      by_cases hbb : (l0.book_id == b) = true
      · simp [beq_iff_eq.mp hbb]
      · have hne : l0.book_id ≠ b := by simpa using hbb
        simp [hbb, hne]
    · rw [List.find?_cons_of_neg (p := fun (l : Loan) => l.loan_id == lid) _ (by simpa using hk)] at hfind
      rw [List.map_cons]
      simp only [hk, Bool.false_eq_true, if_false]
      rw [List.filter_cons, List.filter_cons]
      by_cases hxb : (x.book_id == b && x.is_returned == false) = true
      · simp only [hxb, if_true, List.length_cons]
        have := ih ht hfind
        omega
      · simp only [hxb, Bool.false_eq_true, if_false]
        exact ih ht hfind

/-- Post-state of process_loan: unchanged on every failure; on success the
state has the appended open loan and the decremented book row, and the
availability check and the book row existence necessarily held. -/
theorem process_loan_post (db : task03.DB) (o : task03.Oracle) (c : Clock)
    (b m p : Int) :
    (task03.process_loan db o c b m p).2 = db ∨
    ((task03.process_loan db o c b m p).2 =
      { books := db.books.map (fun bk => if bk.book_id == b then
          { bk with available := bk.available + (-1) } else bk),
        loans := db.loans ++ [⟨db.next_loan_id, b, m, get_current_date c,
          add_days_to_date (get_current_date c) (if p ≤ 0 then 14 else p), false⟩],
        returns := db.returns,
        next_loan_id := db.next_loan_id + 1,
        next_return_id := db.next_return_id } ∧
      (task03.check_book_availability db b == 0) = false ∧
      db.books.any (fun bk => bk.book_id == b) = true) := by
  cases hg1 : (task03.can_member_borrow db c m == 0)
  case true => left; simp [task03.process_loan, hg1]
  case false =>
    cases hg2 : (task03.check_book_availability db b == 0)
    case true => left; simp [task03.process_loan, hg1, hg2]
    case false =>
      cases hb1 : o.insert_loan_fails
      case true => left; simp [task03.process_loan, hg1, hg2, hb1]
      case false =>
        cases hb2 : o.loan_update_avail_fails
        case true => left; simp [task03.process_loan, hg1, hg2, hb1, hb2]
        case false =>
          cases hany : db.books.any (fun bk => bk.book_id == b)
          case false =>
            left
            simp [task03.process_loan, task03.update_book_availability,
              hg1, hg2, hb1, hb2, hany]
          case true =>
            right
            refine ⟨?_, rfl, rfl⟩
            simp [task03.process_loan, task03.update_book_availability,
              hg1, hg2, hb1, hb2, hany]

/-- Post-state of process_return: unchanged on every failure; on success
the looked-up loan was open, its book row exists, and the state has the
appended Return row, the flag set and the incremented book row. -/
theorem process_return_post (db : task03.DB) (o : task03.Oracle) (c : Clock)
    (lid : Int) :
    (task03.process_return db o c lid).2 = db ∨
    (∃ loan od, task03.get_loan_by_id db lid = some loan ∧ loan.is_returned = false ∧
      db.books.any (fun bk => bk.book_id == loan.book_id) = true ∧
      (task03.process_return db o c lid).2 =
        { books := db.books.map (fun bk => if bk.book_id == loan.book_id then
            { bk with available := bk.available + 1 } else bk),
          loans := db.loans.map (fun l =>
            if l.loan_id == lid then { l with is_returned := true } else l),
          returns := db.returns ++ [⟨db.next_return_id, lid, get_current_date c, od⟩],
          next_loan_id := db.next_loan_id,
          next_return_id := db.next_return_id + 1 }) := by
  cases hfind : task03.get_loan_by_id db lid
  case none => left; simp [task03.process_return, hfind]
  case some loan =>
    cases hflag : loan.is_returned
    case true => left; simp [task03.process_return, hfind, hflag]
    case false =>
      cases hb1 : o.insert_return_fails
      case true => left; simp [task03.process_return, hfind, hflag, hb1]
      case false =>
        cases hb2 : o.update_loan_fails
        case true => left; simp [task03.process_return, hfind, hflag, hb1, hb2]
        case false =>
          cases hb3 : o.return_update_avail_fails
          case true => left; simp [task03.process_return, hfind, hflag, hb1, hb2, hb3]
          case false =>
            cases hany : db.books.any (fun bk => bk.book_id == loan.book_id)
            case false =>
              left
              simp [task03.process_return, task03.update_book_availability,
                hfind, hflag, hb1, hb2, hb3, hany]
            case true =>
              right
              refine ⟨loan,
                (if calculate_date_diff loan.due_date (get_current_date c) < 0 then 0
                 else calculate_date_diff loan.due_date (get_current_date c)),
                rfl, hflag, hany, ?_⟩
              simp [task03.process_return, task03.update_book_availability,
                hfind, hflag, hb1, hb2, hb3, hany]

/-- Number of open loans of book `b` (is_returned = 0 rows). -/
def openCount (db : task03.DB) (b : Int) : Nat :=
  (db.loans.filter (fun l => l.book_id == b && l.is_returned == false)).length

/-- The inductive invariant of the circulation state: primary keys are
unique, loan ids stay below the allocator, and each book's available count
is non-negative and leaves room for all its open loans. -/
def StateInv (db : task03.DB) : Prop :=
  db.books.Pairwise (fun b1 b2 => b1.book_id ≠ b2.book_id) ∧
  db.loans.Pairwise (fun l1 l2 => l1.loan_id ≠ l2.loan_id) ∧
  (∀ l ∈ db.loans, l.loan_id < db.next_loan_id) ∧
  (∀ bk ∈ db.books, 0 ≤ bk.available ∧
    bk.available + (openCount db bk.book_id : Int) ≤ bk.quantity)

theorem book_map_id (b : Int) (ch : Int) (bk : Book) :
    ((if bk.book_id == b then { bk with available := bk.available + ch } else bk) : Book).book_id
      = bk.book_id := by
  split <;> rfl

theorem loan_map_id (lid : Int) (l : Loan) :
    ((if l.loan_id == lid then { l with is_returned := true } else l) : Loan).loan_id
      = l.loan_id := by
  split <;> rfl

theorem Inv_process_loan (db : task03.DB) (o : task03.Oracle) (c : Clock)
    (b m p : Int) (h : StateInv db) : StateInv (task03.process_loan db o c b m p).2 := by
  rcases process_loan_post db o c b m p with hpost | ⟨hpost, hg2, hany⟩
  · rw [hpost]; exact h
  · rw [hpost]
    obtain ⟨hbooks, hloans, hbound, hbk⟩ := h
    refine ⟨?_, ?_, ?_, ?_⟩
    · rw [List.pairwise_map]
      refine hbooks.imp ?_
      intro b1 b2 hne
      rw [book_map_id, book_map_id]
      exact hne
    · rw [List.pairwise_append]
      refine ⟨hloans, List.pairwise_singleton _ _, ?_⟩
      intro l1 hl1 l2 hl2
      simp only [List.mem_singleton] at hl2
      subst hl2
      have := hbound l1 hl1
      show l1.loan_id ≠ db.next_loan_id
      omega
    · intro l hl
      rcases List.mem_append.mp hl with hl | hl
      · have := hbound l hl
        show l.loan_id < db.next_loan_id + 1
        omega
      · simp only [List.mem_singleton] at hl
        subst hl
        show db.next_loan_id < db.next_loan_id + 1
        omega
    · intro bk' hbk'
      rw [List.mem_map] at hbk'
      obtain ⟨bk0, hbk0, rfl⟩ := hbk'
      have hb0 := hbk bk0 hbk0
      by_cases hid : (bk0.book_id == b) = true
      · have hbeq : bk0.book_id = b := beq_iff_eq.mp hid
        have hfind : db.books.find? (fun bk2 => bk2.book_id == b) = some bk0 := by
          have hf := find?_key_eq (fun bk2 : Book => bk2.book_id) hbooks hbk0
          simp only [hbeq] at hf
          exact hf
        have havail : bk0.available > 0 := by
          by_cases hpos : bk0.available > 0
          · exact hpos
          · exfalso
            unfold task03.check_book_availability at hg2
            rw [hfind] at hg2
            simp [hpos] at hg2
        have hcnt : openCount
            { books := db.books.map (fun bk => if bk.book_id == b then
                { bk with available := bk.available + (-1) } else bk),
              loans := db.loans ++ [⟨db.next_loan_id, b, m, get_current_date c,
                add_days_to_date (get_current_date c) (if p ≤ 0 then 14 else p), false⟩],
              returns := db.returns,
              next_loan_id := db.next_loan_id + 1,
              next_return_id := db.next_return_id } bk0.book_id =
            openCount db bk0.book_id + 1 := by
          unfold openCount
          rw [List.filter_append]
          simp [hbeq]
        simp only [hid, if_true]
        rw [hcnt]
        constructor
        · show 0 ≤ bk0.available + (-1)
          omega
        · show bk0.available + (-1) + ((openCount db bk0.book_id + 1 : Nat) : Int)
            ≤ bk0.quantity
          push_cast
          omega
      · have hbeq : bk0.book_id ≠ b := by simpa using hid
        have hcnt : openCount
            { books := db.books.map (fun bk => if bk.book_id == b then
                { bk with available := bk.available + (-1) } else bk),
              loans := db.loans ++ [⟨db.next_loan_id, b, m, get_current_date c,
                add_days_to_date (get_current_date c) (if p ≤ 0 then 14 else p), false⟩],
              returns := db.returns,
              next_loan_id := db.next_loan_id + 1,
              next_return_id := db.next_return_id } bk0.book_id =
            openCount db bk0.book_id := by
          unfold openCount
          rw [List.filter_append]
          simp [show (b == bk0.book_id) = false by simpa using (Ne.symm hbeq)]
        simp only [hid, Bool.false_eq_true, if_false]
        rw [hcnt]
        exact hb0

theorem Inv_process_return (db : task03.DB) (o : task03.Oracle) (c : Clock)
    (lid : Int) (h : StateInv db) : StateInv (task03.process_return db o c lid).2 := by
  rcases process_return_post db o c lid with hpost | ⟨loan, od, hfind, hflag, hany, hpost⟩
  · rw [hpost]; exact h
  · rw [hpost]
    obtain ⟨hbooks, hloans, hbound, hbk⟩ := h
    have hfind' : db.loans.find? (fun l => l.loan_id == lid) = some loan := hfind
    refine ⟨?_, ?_, ?_, ?_⟩
    · rw [List.pairwise_map]
      refine hbooks.imp ?_
      intro b1 b2 hne
      rw [book_map_id, book_map_id]
      exact hne
    · rw [List.pairwise_map]
      refine hloans.imp ?_
      intro l1 l2 hne
      rw [loan_map_id, loan_map_id]
      exact hne
    · intro l hl
      rw [List.mem_map] at hl
      obtain ⟨l0, hl0, rfl⟩ := hl
      rw [loan_map_id]
      exact hbound l0 hl0
    · intro bk' hbk'
      rw [List.mem_map] at hbk'
      obtain ⟨bk0, hbk0, rfl⟩ := hbk'
      have hb0 := hbk bk0 hbk0
      have hcnt := flag_count db.loans lid loan bk0.book_id hloans hfind' hflag
      by_cases hid : (bk0.book_id == loan.book_id) = true
      · have hbeq : bk0.book_id = loan.book_id := beq_iff_eq.mp hid
        have hone : (if loan.book_id = bk0.book_id then 1 else 0) = 1 := by
          rw [if_pos hbeq.symm]
        rw [hone] at hcnt
        have hcnt2 : openCount
            { books := db.books.map (fun bk => if bk.book_id == loan.book_id then
                { bk with available := bk.available + 1 } else bk),
              loans := db.loans.map (fun l =>
                if l.loan_id == lid then { l with is_returned := true } else l),
              returns := db.returns ++ [⟨db.next_return_id, lid, get_current_date c, od⟩],
              next_loan_id := db.next_loan_id,
              next_return_id := db.next_return_id + 1 } bk0.book_id + 1 =
            openCount db bk0.book_id := hcnt
        simp only [hid, if_true]
        constructor
        · show 0 ≤ bk0.available + 1
          omega
        · show bk0.available + 1 + ((openCount _ bk0.book_id : Nat) : Int) ≤ bk0.quantity
          omega
      · have hbeq : loan.book_id ≠ bk0.book_id := by
          intro he
          rw [← he] at hid
          simp at hid
        have hzero : (if loan.book_id = bk0.book_id then 1 else 0) = 0 := by
          rw [if_neg hbeq]
        rw [hzero, Nat.add_zero] at hcnt
        simp only [hid, Bool.false_eq_true, if_false]
        have hcnt2 : openCount
            { books := db.books.map (fun bk => if bk.book_id == loan.book_id then
                { bk with available := bk.available + 1 } else bk),
              loans := db.loans.map (fun l =>
                if l.loan_id == lid then { l with is_returned := true } else l),
              returns := db.returns ++ [⟨db.next_return_id, lid, get_current_date c, od⟩],
              next_loan_id := db.next_loan_id,
              next_return_id := db.next_return_id + 1 } bk0.book_id =
            openCount db bk0.book_id := hcnt
        rw [hcnt2]
        exact hb0

/-- States reachable from a start state by any sequence of loan issues and
return processings, with arbitrary clocks and storage outcomes. -/
inductive Reachable : task03.DB → task03.DB → Prop
  | refl (db : task03.DB) : Reachable db db
  | loan (db1 db2 : task03.DB) (o : task03.Oracle) (c : Clock) (b m p : Int) :
      Reachable db1 db2 → Reachable db1 (task03.process_loan db2 o c b m p).2
  | ret (db1 db2 : task03.DB) (o : task03.Oracle) (c : Clock) (lid : Int) :
      Reachable db1 db2 → Reachable db1 (task03.process_return db2 o c lid).2

theorem StateInv_bounds {db : task03.DB} (h : StateInv db) :
    ∀ bk ∈ db.books, 0 ≤ bk.available ∧ bk.available ≤ bk.quantity := by
  intro bk hbk
  have := h.2.2.2 bk hbk
  have hc : (0 : Int) ≤ (openCount db bk.book_id : Nat) := Int.natCast_nonneg _
  omega

/-- C8 (amended): the bound 0 ≤ available ≤ quantity holds in every state
reachable by sequences of process_loan / process_return from a state
satisfying the inductive invariant StateInv - unique primary keys, loan
ids below the allocator, and available + (open loans of the book) ≤
quantity (in particular any freshly stocked catalog, where every book has
available = quantity and no loans exist).  The plain bound alone is not
inductive: see the counterexample. -/
theorem C8_availability_invariant (db db' : task03.DB) (hInv : StateInv db)
    (hr : Reachable db db') :
    StateInv db' ∧ ∀ bk ∈ db'.books, 0 ≤ bk.available ∧ bk.available ≤ bk.quantity := by
  induction hr with
  | refl => exact ⟨hInv, StateInv_bounds hInv⟩
  | loan db2 o c b m p hr ih =>
    have h2 := Inv_process_loan db2 o c b m p ih.1
    exact ⟨h2, StateInv_bounds h2⟩
  | ret db2 o c lid hr ih =>
    have h2 := Inv_process_return db2 o c lid ih.1
    exact ⟨h2, StateInv_bounds h2⟩

/-- A state satisfying only the claim's plain bound: book 3 has quantity 1
and available 1, yet an open loan of it exists. -/
def dbOverfull : task03.DB :=
  ⟨[⟨3, 1, 1⟩], [⟨1, 3, 7, "2024-01-01", "2024-01-06", false⟩], [], 2, 1⟩

/-- C8 counterexample: from a state satisfying 0 ≤ available ≤ quantity, a
single return drives available above quantity, so the plain bound is not
preserved by the operations alone. -/
theorem C8_counterexample :
    (∀ bk ∈ dbOverfull.books, 0 ≤ bk.available ∧ bk.available ≤ bk.quantity) ∧
    ¬(∀ bk ∈ (task03.process_return dbOverfull oracle03 clock0 1).2.books,
        0 ≤ bk.available ∧ bk.available ≤ bk.quantity) := by
  constructor <;> decide

theorem C8_witness :
    StateInv (task03.process_loan dbIssue oracle03 clock0 3 7 14).2 ∧
    ∀ bk ∈ (task03.process_loan dbIssue oracle03 clock0 3 7 14).2.books,
      0 ≤ bk.available ∧ bk.available ≤ bk.quantity :=
  C8_availability_invariant dbIssue (task03.process_loan dbIssue oracle03 clock0 3 7 14).2
    (by constructor
        · decide
        · constructor
          · decide
          · constructor
            · decide
            · decide)
    (Reachable.loan dbIssue dbIssue oracle03 clock0 3 7 14 (Reachable.refl dbIssue))
